/-
Verification of the VCF ingestion pipeline (src/vcf_integration.py).

Shallow embedding conventions:
  * Python strings are modelled as `List Char` (ASCII assumption: the
    pipeline's inputs are ASCII VCF text; `str.isdigit`, `int()`, `float()`
    and whitespace stripping are modelled on the ASCII fragment of their
    Python semantics).
  * Python exceptions that the source can raise and does not catch
    (`ValueError` from `int`/`float`, `IndexError` from list indexing,
    `AttributeError` from calling `.split` on a `bool`) are modelled with
    `Except PyErr`.
  * `float` values are never computed with by the pipeline (they are only
    parsed and stored), so a successfully parsed float is carried as its
    accepted literal string.
  * The Neo4j store is external to the repository; its `MERGE`-based
    upsert semantics (`MERGE` on the key then `SET` of the properties,
    `MATCH` of both endpoints before an edge `MERGE`) is modelled as an
    association list updated by key.
-/
import Mathlib

set_option maxHeartbeats 1600000

/-- Python strings are modelled as lists of characters. -/
abbrev Str := List Char

/-- Convert a Lean string literal to the `Str` representation. -/
def str (s : String) : Str := s.data

/-- ASCII whitespace, as stripped by Python's `str.strip()`. -/
def isPySpace (c : Char) : Bool :=
  c = ' ' || c = '\t' || c = '\n' || c = '\r' || c = '\x0b' || c = '\x0c'

/-- Python `s.strip()` (ASCII whitespace). -/
def pyStrip (s : Str) : Str :=
  ((s.dropWhile isPySpace).reverse.dropWhile isPySpace).reverse

/-- Python `s.split(sep)` for a one-character separator: splits at every
occurrence, never collapsing; the result is always non-empty. -/
def pySplit (s : Str) (sep : Char) : List Str :=
  match s with
  | [] => [[]]
  | c :: rest =>
    if c = sep then [] :: pySplit rest sep
    else
      match pySplit rest sep with
      | t :: ts => (c :: t) :: ts
      | [] => [[c]]

/-- Python `s.split(sep, 1)` for a one-character separator: split only at
the first occurrence. -/
def pySplitOnce (s : Str) (sep : Char) : List Str :=
  match s with
  | [] => [[]]
  | c :: rest =>
    if c = sep then [[], rest]
    else
      match pySplitOnce rest sep with
      | t :: ts => (c :: t) :: ts
      | [] => [[c]]

/-- Python `s.startswith(p)`. -/
def pyStartsWith : Str → Str → Bool
  | _, [] => true
  | [], _ :: _ => false
  | c :: s, p :: ps => c = p && pyStartsWith s ps

/-- Python `s.replace('|', '/')` as used on genotype strings. -/
def pyReplacePipe (s : Str) : Str :=
  s.map (fun c => if c = '|' then '/' else c)

/-- Python `s.isdigit()` on the ASCII fragment: non-empty and all digits. -/
def pyIsdigit (s : Str) : Bool :=
  !s.isEmpty && s.all Char.isDigit

/-- Numeric value of a string of decimal digits. -/
def natFromDigits (s : Str) : Nat :=
  s.foldl (fun n c => 10 * n + (c.toNat - 48)) 0

/-- Strip one leading sign character; returns (negative?, rest). -/
def stripSign : Str → (Bool × Str)
  | '-' :: t => (true, t)
  | '+' :: t => (false, t)
  | s => (false, s)

/-- Consume a run of decimal digits in which single underscores may appear
between digits (Python numeric literal grammar); returns the digits
consumed (underscores dropped) and the unconsumed remainder. -/
def takeUGroup : Str → (Str × Str)
  | [] => ([], [])
  | [c] => if c.isDigit then ([c], []) else ([], [c])
  | c :: c1 :: rest =>
    if c.isDigit then
      if c1 = '_' then
        match rest with
        | [] => ([c], ['_'])
        | c2 :: t2 =>
          if c2.isDigit then
            let (ds, r) := takeUGroup (c2 :: t2)
            (c :: ds, r)
          else ([c], '_' :: c2 :: t2)
      else
        let (ds, r) := takeUGroup (c1 :: rest)
        (c :: ds, r)
    else ([], c :: c1 :: rest)

/-- Python `int(s)` on ASCII decimal strings: optional surrounding
whitespace, optional sign, a non-empty digit run with optional single
underscores between digits.  `none` models a raised `ValueError`. -/
def pyIntOf (s : Str) : Option Int :=
  let t := pyStrip s
  let (neg, t1) := stripSign t
  let (ds, r) := takeUGroup t1
  if ds ≠ [] ∧ r = [] then
    some (if neg then -(natFromDigits ds : Int) else (natFromDigits ds : Int))
  else none

/-- Exponent suffix of a Python float literal: empty, or `e`/`E` followed
by an optional sign and a non-empty digit group, with nothing after. -/
def pyExpOk : Str → Bool
  | [] => true
  | c :: r =>
    if c = 'e' || c = 'E' then
      let (_, r1) := stripSign r
      let (ds, r2) := takeUGroup r1
      !ds.isEmpty && r2.isEmpty
    else false

/-- Python `float(s)` acceptance on ASCII strings: optional whitespace and
sign, then `inf`/`infinity`/`nan` (any case) or a decimal literal with at
least one mantissa digit and an optional exponent.  `false` models a
raised `ValueError`. -/
def pyFloatOk (s : Str) : Bool :=
  let t := pyStrip s
  let (_, t1) := stripSign t
  let tl := t1.map Char.toLower
  if tl = str "inf" || tl = str "infinity" || tl = str "nan" then true
  else
    let (ip, r1) := takeUGroup t1
    match r1 with
    | '.' :: r2 =>
      let (fp, r3) := takeUGroup r2
      (!ip.isEmpty || !fp.isEmpty) && pyExpOk r3
    | r1' => !ip.isEmpty && pyExpOk r1'

/-- Decimal rendering of an integer, matching Python's string
interpolation of an `int`. -/
def intStr (i : Int) : Str := (toString i).data

section AssocMap

variable {K V : Type} [DecidableEq K]

/-- First-match lookup in an association list. -/
def lookupK : List (K × V) → K → Option V
  | [], _ => none
  | p :: t, k => if p.1 = k then some p.2 else lookupK t k

/-- Keys of an association list, in order. -/
def keysOf (s : List (K × V)) : List K := s.map Prod.fst

/-- The store's `MERGE ... SET` upsert: update every entry holding the key
in place, or append a fresh entry when the key is absent. -/
def upsert (s : List (K × V)) (k : K) (v : V) : List (K × V) :=
  if (lookupK s k).isSome then
    s.map (fun p => if p.1 = k then (k, v) else p)
  else s ++ [(k, v)]

/-- Sequential upsert of a batch, in order (`UNWIND` row semantics). -/
def upsertAll (s : List (K × V)) (b : List (K × V)) : List (K × V) :=
  b.foldl (fun acc p => upsert acc p.1 p.2) s

/-- Value of the last entry of `b` carrying key `k`, if any. -/
def lastVal : List (K × V) → K → Option V
  | [], _ => none
  | p :: t, k =>
    match lastVal t k with
    | some v => some v
    | none => if p.1 = k then some p.2 else none

/-- The keys of an association list are pairwise distinct. -/
def NodupKeys (s : List (K × V)) : Prop := (keysOf s).Nodup

instance (s : List (K × V)) : Decidable (NodupKeys s) := by
  unfold NodupKeys; infer_instance

end AssocMap

/- ===== MD5 (RFC 1321), used by `normalize_variant_id` for keys longer
   than 100 characters ===== -/

/-- Reduce modulo 2^32. -/
def m32 (x : Nat) : Nat := x % 4294967296

/-- Bitwise complement on 32-bit words. -/
def bnot32 (x : Nat) : Nat := 4294967295 - m32 x

/-- Left rotation of a 32-bit word. -/
def rotl32 (x s : Nat) : Nat := m32 (m32 x * 2 ^ s) + m32 x / 2 ^ (32 - s)

/-- The 64 MD5 sine-derived constants. -/
def md5K : List Nat :=
  [0xd76aa478, 0xe8c7b756, 0x242070db, 0xc1bdceee,
   0xf57c0faf, 0x4787c62a, 0xa8304613, 0xfd469501,
   0x698098d8, 0x8b44f7af, 0xffff5bb1, 0x895cd7be,
   0x6b901122, 0xfd987193, 0xa679438e, 0x49b40821,
   0xf61e2562, 0xc040b340, 0x265e5a51, 0xe9b6c7aa,
   0xd62f105d, 0x02441453, 0xd8a1e681, 0xe7d3fbc8,
   0x21e1cde6, 0xc33707d6, 0xf4d50d87, 0x455a14ed,
   0xa9e3e905, 0xfcefa3f8, 0x676f02d9, 0x8d2a4c8a,
   0xfffa3942, 0x8771f681, 0x6d9d6122, 0xfde5380c,
   0xa4beea44, 0x4bdecfa9, 0xf6bb4b60, 0xbebfbc70,
   0x289b7ec6, 0xeaa127fa, 0xd4ef3085, 0x04881d05,
   0xd9d4d039, 0xe6db99e5, 0x1fa27cf8, 0xc4ac5665,
   0xf4292244, 0x432aff97, 0xab9423a7, 0xfc93a039,
   0x655b59c3, 0x8f0ccc92, 0xffeff47d, 0x85845dd1,
   0x6fa87e4f, 0xfe2ce6e0, 0xa3014314, 0x4e0811a1,
   0xf7537e82, 0xbd3af235, 0x2ad7d2bb, 0xeb86d391]

/-- The 64 MD5 per-step rotation amounts. -/
def md5S : List Nat :=
  [7, 12, 17, 22, 7, 12, 17, 22, 7, 12, 17, 22, 7, 12, 17, 22,
   5, 9, 14, 20, 5, 9, 14, 20, 5, 9, 14, 20, 5, 9, 14, 20,
   4, 11, 16, 23, 4, 11, 16, 23, 4, 11, 16, 23, 4, 11, 16, 23,
   6, 10, 15, 21, 6, 10, 15, 21, 6, 10, 15, 21, 6, 10, 15, 21]

/-- MD5 padding: append `0x80`, zero bytes to 56 mod 64, then the 64-bit
little-endian bit length. -/
def padMd5 (msg : List Nat) : List Nat :=
  let len := msg.length
  let k := (56 + 64 - (len + 1) % 64) % 64
  msg ++ 128 :: List.replicate k 0 ++
    (List.range 8).map (fun i => 8 * len / 2 ^ (8 * i) % 256)

/-- Split a byte list into 64-byte blocks. -/
def chunks64 (bs : List Nat) : List (List Nat) :=
  if h : bs = [] then [] else bs.take 64 :: chunks64 (bs.drop 64)
termination_by bs.length
decreasing_by
  simp only [List.length_drop]
  have := List.length_pos.mpr h
  omega

/-- Little-endian 32-bit word `j` of a 64-byte chunk. -/
def wordsOf (chunk : List Nat) (j : Nat) : Nat :=
  chunk.getD (4 * j) 0 + 256 * chunk.getD (4 * j + 1) 0 +
    65536 * chunk.getD (4 * j + 2) 0 + 16777216 * chunk.getD (4 * j + 3) 0

/-- One of the 64 MD5 steps. -/
def md5Step (m : Nat → Nat) (st : Nat × Nat × Nat × Nat) (i : Nat) :
    Nat × Nat × Nat × Nat :=
  let (a, b, c, d) := st
  let fg : Nat × Nat :=
    if i < 16 then ((b &&& c) ||| (bnot32 b &&& d), i)
    else if i < 32 then ((d &&& b) ||| (bnot32 d &&& c), (5 * i + 1) % 16)
    else if i < 48 then (b ^^^ c ^^^ d, (3 * i + 5) % 16)
    else (c ^^^ (b ||| bnot32 d), 7 * i % 16)
  let f := m32 (fg.1 + a + md5K.getD i 0 + m fg.2)
  (d, m32 (b + rotl32 f (md5S.getD i 0)), b, c)

/-- Process one 64-byte chunk. -/
def md5Chunk (st : Nat × Nat × Nat × Nat) (chunk : List Nat) :
    Nat × Nat × Nat × Nat :=
  let (a0, b0, c0, d0) := st
  let (a, b, c, d) := (List.range 64).foldl (md5Step (wordsOf chunk)) st
  (m32 (a0 + a), m32 (b0 + b), m32 (c0 + c), m32 (d0 + d))

/-- MD5 state after absorbing a whole message. -/
def md5Final (msg : List Nat) : Nat × Nat × Nat × Nat :=
  (chunks64 (padMd5 msg)).foldl md5Chunk
    (0x67452301, 0xefcdab89, 0x98badcfe, 0x10325476)

/-- Little-endian byte serialization of a 32-bit word. -/
def wordLE (w : Nat) : List Nat :=
  [w % 256, w / 256 % 256, w / 65536 % 256, w / 16777216 % 256]

/-- The 16-byte MD5 digest of a byte string. -/
def md5Bytes (msg : List Nat) : List Nat :=
  wordLE (md5Final msg).1 ++ wordLE (md5Final msg).2.1 ++
    wordLE (md5Final msg).2.2.1 ++ wordLE (md5Final msg).2.2.2

/-- A lowercase hexadecimal digit. -/
def hexChar (n : Nat) : Char :=
  Char.ofNat (if n < 10 then 48 + n else 87 + n)

/-- Two lowercase hex digits of one byte. -/
def byteHex (b : Nat) : Str := [hexChar (b / 16 % 16), hexChar (b % 16)]

/-- Lowercase hex rendering of a byte string. -/
def hexOfBytes (bs : List Nat) : Str := (bs.map byteHex).flatten

/-- Python `hashlib.md5(s.encode()).hexdigest()` on ASCII strings. -/
def md5hex (s : Str) : Str := hexOfBytes (md5Bytes (s.map Char.toNat))

/- ===== Data model (vcf_integration.py dataclasses) ===== -/

/-- A Python exception escaping the pipeline's code. -/
inductive PyErr : Type
  | valueError
  | indexError
  | attributeError
deriving DecidableEq, Repr

deriving instance DecidableEq for Except

/-- A value of the parsed INFO dictionary: either the string after `=` or
`True` for a bare flag token. -/
inductive InfoVal : Type
  | s (v : Str)
  | flag
deriving DecidableEq, Repr

/-- `VCFVariant`: a variant parsed from one VCF data line. -/
structure VCFVariant where
  chromosome : Str
  position : Int
  variant_id : Str
  ref_allele : Str
  alt_alleles : List Str
  quality : Option Str
  filter_status : Str
  info : List (Str × InfoVal)
  genotypes : List (Str × Str)
deriving DecidableEq, Repr

/-- `ProcessingStats` (the `processing_time` field is never written by the
pipeline and is omitted). -/
structure ProcessingStats where
  total_variants : Nat
  processed_variants : Nat
  skipped_variants : Nat
  total_genotypes : Nat
deriving DecidableEq, Repr

/-- The node-property dictionary built by `create_variant_node`. -/
structure VariantNodeData where
  variant_id : Str
  original_id : Str
  chromosome : Str
  position : Int
  ref_allele : Str
  alt_allele : Str
  variant_type : Str
  quality_score : Option Str
  filter_status : Str
  allele_frequency : Option Str
  functional_impact : Option Str
deriving DecidableEq, Repr

/-- The relationship dictionary built in `process_vcf_batch`. -/
structure GenotypeRel where
  from_id : Str
  to_id : Str
  genotype : Str
  dosage : Nat
  quality_score : Option Str
deriving DecidableEq, Repr

/-- The properties `SET` on a `HAS_VARIANT` edge. -/
structure EdgeProps where
  genotype : Str
  dosage : Nat
  quality_score : Option Str
deriving DecidableEq, Repr

/-- The external graph store, reduced to the surface the pipeline writes:
variant nodes keyed by `variant_id`, `HAS_VARIANT` edges keyed by the
(germplasm, variant) pair, and the set of existing germplasm ids (owned
by an external collaborator and never modified by `process_vcf_file`). -/
structure Store where
  nodes : List (Str × VariantNodeData)
  edges : List ((Str × Str) × EdgeProps)
  germs : List Str
deriving DecidableEq, Repr

/- ===== RecordParser (parse_vcf_header / parse_vcf_line) ===== -/

/-- The tab-separated fields of a stripped line. -/
def vcfFields (line : Str) : List Str := pySplit (pyStrip line) '\t'

/-- The metadata update for one `##key=value` header line. -/
def headerMeta (line : Str) (md : List (Str × Str)) : List (Str × Str) :=
  if '=' ∈ line then
    match pySplitOnce (pyStrip (line.drop 2)) '=' with
    | [k, v] => upsert md k v
    | _ => md
  else md

/-- `parse_vcf_header`: scan lines, collecting `##` metadata, until the
`#CHROM` line; sample names are its fields from column 10 on.  If no
`#CHROM` line exists the scan ends with an empty sample list. -/
def parse_vcf_header (lines : List Str) : List Str × List (Str × Str) :=
  go lines []
where
  go : List Str → List (Str × Str) → List Str × List (Str × Str)
  | [], md => ([], md)
  | l :: rest, md =>
    if pyStartsWith l (str "##") then go rest (headerMeta l md)
    else if pyStartsWith l (str "#CHROM") then
      let fields := vcfFields l
      (if 9 < fields.length then fields.drop 9 else [], md)
    else go rest md

/-- The INFO dictionary of field 8: semicolon-separated `key=value` or
bare-flag tokens, accumulated with dict-update semantics. -/
def parseInfo (f7 : Str) : List (Str × InfoVal) :=
  if f7 ≠ str "." then
    (pySplit f7 ';').foldl
      (fun info item =>
        if '=' ∈ item then
          match pySplitOnce item '=' with
          | k :: v :: _ => upsert info k (InfoVal.s v)
          | _ => info
        else upsert info item InfoVal.flag)
      []
  else []

/-- The genotype dictionary: sample names matched positionally to columns
10.., keeping the first colon-delimited subfield of each column. -/
def parseGenotypes (fields : List Str) (samples : List Str) :
    List (Str × Str) :=
  if 9 < fields.length then
    samples.enum.foldl
      (fun gts p =>
        if p.1 + 9 < fields.length then
          let gd := pySplit (fields.getD (p.1 + 9) []) ':'
          if 0 < gd.length then upsert gts p.2 (gd.headD []) else gts
        else gts)
      []
  else []

/-- The quality field: `.` is missing; otherwise `float()` must accept it
or a `ValueError` is raised. -/
def parseQual (f5 : Str) : Except PyErr (Option Str) :=
  if f5 = str "." then .ok none
  else if pyFloatOk f5 then .ok (some f5) else .error .valueError

/-- `parse_vcf_line`: `.ok none` models the explicit `return None` for a
line with fewer than 8 fields, `.error` an uncaught exception
(`int(fields[1])` or `float(fields[5])` raising `ValueError`). -/
def parse_vcf_line (line : Str) (samples : List Str) :
    Except PyErr (Option VCFVariant) :=
  let fields := vcfFields line
  if fields.length < 8 then .ok none
  else
    match pyIntOf (fields.getD 1 []) with
    | none => .error .valueError
    | some pos =>
      let chrom := fields.getD 0 []
      let vid :=
        if fields.getD 2 [] ≠ str "." then fields.getD 2 []
        else chrom ++ '_' :: intStr pos
      let ref := fields.getD 3 []
      let alt :=
        if fields.getD 4 [] ≠ str "." then pySplit (fields.getD 4 []) ','
        else []
      match parseQual (fields.getD 5 []) with
      | .error e => .error e
      | .ok qual =>
        .ok (some
          { chromosome := chrom
            position := pos
            variant_id := vid
            ref_allele := ref
            alt_alleles := alt
            quality := qual
            filter_status := fields.getD 6 []
            info := parseInfo (fields.getD 7 [])
            genotypes := parseGenotypes fields samples })

/- ===== IdentifierNormalizer (normalize_variant_id) ===== -/

/-- Python `'_'.join(parts)`. -/
def pyJoinU : List Str → Str
  | [] => []
  | [a] => a
  | a :: b :: t => a ++ '_' :: pyJoinU (b :: t)

/-- The concatenated key `chrom_pos_ref_alts` before the length check
(`REF` stands in when there are no alt alleles). -/
def rawVariantId (v : VCFVariant) : Str :=
  v.chromosome ++ '_' :: intStr v.position ++ '_' :: v.ref_allele ++
    '_' :: (if v.alt_alleles ≠ [] then pyJoinU v.alt_alleles else str "REF")

/-- `normalize_variant_id`: the concatenated key, replaced by
`VAR_` ++ the first 16 hex digits of its MD5 when longer than 100. -/
def normalize_variant_id (v : VCFVariant) : Str :=
  let normalized := rawVariantId v
  if 100 < normalized.length then str "VAR_" ++ (md5hex normalized).take 16
  else normalized

/- ===== create_variant_node ===== -/

/-- The `allele_frequency` property: `float(info['AF'].split(',')[0])`
with `ValueError`/`IndexError` suppressed; a bare-flag `AF` raises an
uncaught `AttributeError` (`True.split`). -/
def alleleFreqOf (info : List (Str × InfoVal)) : Except PyErr (Option Str) :=
  match lookupK info (str "AF") with
  | some (.s x) =>
    let first := (pySplit x ',').headD []
    .ok (if pyFloatOk first then some first else none)
  | some .flag => .error .attributeError
  | none => .ok none

/-- The `functional_impact` property: `info['ANN'].split('|')[1]` when
`ANN` is present — an uncaught `IndexError` when the value has no `|`,
an uncaught `AttributeError` when `ANN` is a bare flag. -/
def functionalImpactOf (info : List (Str × InfoVal)) :
    Except PyErr (Option Str) :=
  match lookupK info (str "ANN") with
  | some (.s x) =>
    let parts := pySplit x '|'
    if 1 < parts.length then .ok (some (parts.getD 1 []))
    else .error .indexError
  | some .flag => .error .attributeError
  | none => .ok none

/-- Python `','.join(parts)`. -/
def pyJoinC : List Str → Str
  | [] => []
  | [a] => a
  | a :: b :: t => a ++ ',' :: pyJoinC (b :: t)

/-- `create_variant_node`: build the node-property dictionary. -/
def create_variant_node (v : VCFVariant) : Except PyErr VariantNodeData := do
  let normalized := normalize_variant_id v
  let variant_type :=
    if v.alt_alleles.any (fun a => a.length ≠ v.ref_allele.length) then
      str "INDEL"
    else str "SNP"
  let af ← alleleFreqOf v.info
  let fi ← functionalImpactOf v.info
  .ok
    { variant_id := normalized
      original_id := v.variant_id
      chromosome := v.chromosome
      position := v.position
      ref_allele := v.ref_allele
      alt_allele := if v.alt_alleles ≠ [] then pyJoinC v.alt_alleles else []
      variant_type := variant_type
      quality_score := v.quality
      filter_status := v.filter_status
      allele_frequency := af
      functional_impact := fi }

/- ===== GenotypeEncoder / process_vcf_batch ===== -/

/-- Whether a qualifying allele token: `allele.isdigit() and int(allele) > 0`. -/
def alleleCounts (a : Str) : Bool :=
  pyIsdigit a && decide (0 < natFromDigits a)

/-- The dosage loop: split the genotype on `/` after unifying `|` to `/`,
and count the numeric tokens greater than zero. -/
def dosageOf (g : Str) : Nat :=
  (pySplit (pyReplacePipe g) '/').foldl
    (fun d a => if alleleCounts a then d + 1 else d) 0

/-- The body of the genotype loop of `process_vcf_batch` for one
(sample, genotype) item: `none` when the guard
`genotype and genotype != './.' and genotype != '.'` skips the pair. -/
def mkGenotypeRel (to_id : Str) (quality : Option Str) (sample_id g : Str) :
    Option GenotypeRel :=
  if g ≠ [] ∧ g ≠ str "./." ∧ g ≠ str "." then
    some
      { from_id := sample_id
        to_id := to_id
        genotype := g
        dosage := dosageOf g
        quality_score := quality }
  else none

/-- The genotype relationships contributed by one variant. -/
def relsOf (node : VariantNodeData) (v : VCFVariant) : List GenotypeRel :=
  v.genotypes.filterMap (fun p => mkGenotypeRel node.variant_id v.quality p.1 p.2)

/-- `process_vcf_batch`: node dictionaries and relationship dictionaries
for a batch, in arrival order. -/
def process_vcf_batch : List VCFVariant →
    Except PyErr (List VariantNodeData × List GenotypeRel)
  | [] => .ok ([], [])
  | v :: rest =>
    match create_variant_node v with
    | .error e => .error e
    | .ok node =>
      match process_vcf_batch rest with
      | .error e => .error e
      | .ok (ns, es) => .ok (node :: ns, relsOf node v ++ es)

/- ===== GraphUpsertWriter (batch_insert_variants /
   batch_insert_genotype_relationships) ===== -/

/-- `batch_insert_variants`: `MERGE (v:Variant {variant_id}) SET v += row`
for each row, in order. -/
def batch_insert_variants (st : Store) (ns : List VariantNodeData) : Store :=
  { st with
    nodes := upsertAll st.nodes (ns.map (fun n => (n.variant_id, n))) }

/-- `batch_insert_genotype_relationships`: for each row, `MATCH` the
germplasm and the variant — silently dropping the row when either is
absent — then `MERGE` the `HAS_VARIANT` edge and `SET` its properties. -/
def batch_insert_genotype_relationships (st : Store)
    (rels : List GenotypeRel) : Store :=
  { st with
    edges :=
      rels.foldl
        (fun es r =>
          if r.from_id ∈ st.germs ∧ (lookupK st.nodes r.to_id).isSome then
            upsert es (r.from_id, r.to_id)
              { genotype := r.genotype
                dosage := r.dosage
                quality_score := r.quality_score }
          else es)
        st.edges }

/-- The store effect of one flush: node upserts, then edge upserts. -/
def applyFlush (st : Store) (f : List VariantNodeData × List GenotypeRel) :
    Store :=
  batch_insert_genotype_relationships (batch_insert_variants st f.1) f.2

/- ===== IngestionPipeline (process_vcf_file /
   _process_and_insert_batch) ===== -/

/-- Statistics update of `_process_and_insert_batch`. -/
def statsAfterFlush (stats : ProcessingStats)
    (f : List VariantNodeData × List GenotypeRel) : ProcessingStats :=
  { stats with
    processed_variants := stats.processed_variants + f.1.length
    total_genotypes := stats.total_genotypes + f.2.length }

/-- The store-free part of a flush: process the batch and account for it. -/
def scriptFlush (stats : ProcessingStats) (batch : List VCFVariant) :
    Except PyErr ((List VariantNodeData × List GenotypeRel) × ProcessingStats) :=
  match process_vcf_batch batch with
  | .error e => .error e
  | .ok f => .ok (f, statsAfterFlush stats f)

/-- `_process_and_insert_batch`: process the batch, insert nodes then
edges, update statistics. -/
def processAndInsertBatch (st : Store) (stats : ProcessingStats)
    (batch : List VCFVariant) : Except PyErr (Store × ProcessingStats) :=
  match scriptFlush stats batch with
  | .error e => .error e
  | .ok (f, stats') => .ok (applyFlush st f, stats')

/-- The truthiness test `max_variants and total >= max_variants`. -/
def mvHit (mv : Option Nat) (total : Nat) : Bool :=
  match mv with
  | none => false
  | some m => decide (m ≠ 0) && decide (m ≤ total)

/-- The streaming loop of `process_vcf_file`: skip `#` lines, parse each
data line, accumulate a batch, flush at `batch_size`, stop early at
`max_variants`, and flush the final partial batch. -/
def ingestLoop (samples : List Str) (bs : Nat) (mv : Option Nat) :
    List Str → Store → ProcessingStats → List VCFVariant →
    Except PyErr (Store × ProcessingStats)
  | [], st, stats, batch =>
    if batch ≠ [] then processAndInsertBatch st stats batch
    else .ok (st, stats)
  | line :: rest, st, stats, batch =>
    if pyStartsWith line (str "#") then ingestLoop samples bs mv rest st stats batch
    else
      match parse_vcf_line line samples with
      | .error e => .error e
      | .ok none =>
        ingestLoop samples bs mv rest st
          { stats with skipped_variants := stats.skipped_variants + 1 } batch
      | .ok (some v) =>
        let batch1 := batch ++ [v]
        let stats1 := { stats with total_variants := stats.total_variants + 1 }
        if bs ≤ batch1.length then
          match processAndInsertBatch st stats1 batch1 with
          | .error e => .error e
          | .ok (st2, stats2) =>
            if mvHit mv stats2.total_variants then .ok (st2, stats2)
            else ingestLoop samples bs mv rest st2 stats2 []
        else
          if mvHit mv stats1.total_variants then
            processAndInsertBatch st stats1 batch1
          else ingestLoop samples bs mv rest st stats1 batch1

/-- `process_vcf_file`: parse the header for the sample list, reset the
statistics, stream every line. -/
def process_vcf_file (st : Store) (lines : List Str) (mv : Option Nat)
    (bs : Nat) : Except PyErr (Store × ProcessingStats) :=
  ingestLoop (parse_vcf_header lines).1 bs mv lines st ⟨0, 0, 0, 0⟩ []

/-- Store-free mirror of `ingestLoop`: emits the flushed (nodes, edges)
pairs in order instead of applying them.  Used to factor the run into a
store-independent script and a store application. -/
def scriptLoop (samples : List Str) (bs : Nat) (mv : Option Nat) :
    List Str → ProcessingStats → List VCFVariant →
    Except PyErr (List (List VariantNodeData × List GenotypeRel) × ProcessingStats)
  | [], stats, batch =>
    if batch ≠ [] then
      match scriptFlush stats batch with
      | .error e => .error e
      | .ok (f, s) => .ok ([f], s)
    else .ok ([], stats)
  | line :: rest, stats, batch =>
    if pyStartsWith line (str "#") then scriptLoop samples bs mv rest stats batch
    else
      match parse_vcf_line line samples with
      | .error e => .error e
      | .ok none =>
        scriptLoop samples bs mv rest
          { stats with skipped_variants := stats.skipped_variants + 1 } batch
      | .ok (some v) =>
        let batch1 := batch ++ [v]
        let stats1 := { stats with total_variants := stats.total_variants + 1 }
        if bs ≤ batch1.length then
          match scriptFlush stats1 batch1 with
          | .error e => .error e
          | .ok (f, stats2) =>
            if mvHit mv stats2.total_variants then .ok ([f], stats2)
            else
              match scriptLoop samples bs mv rest stats2 [] with
              | .error e => .error e
              | .ok (fs, s) => .ok (f :: fs, s)
        else
          if mvHit mv stats1.total_variants then
            match scriptFlush stats1 batch1 with
            | .error e => .error e
            | .ok (f, s) => .ok ([f], s)
          else scriptLoop samples bs mv rest stats1 batch1

/-- Apply a list of flushes to the store, in order. -/
def applyFlushes (st : Store)
    (fs : List (List VariantNodeData × List GenotypeRel)) : Store :=
  fs.foldl applyFlush st

/- ===== Association-map lemmas ===== -/

section AssocMapLemmas

variable {K V : Type} [DecidableEq K]

theorem upsertAll_nil (s : List (K × V)) : upsertAll s [] = s := rfl

theorem upsertAll_cons (s : List (K × V)) (p : K × V) (b : List (K × V)) :
    upsertAll s (p :: b) = upsertAll (upsert s p.1 p.2) b := rfl

theorem upsertAll_append (s : List (K × V)) (b1 b2 : List (K × V)) :
    upsertAll s (b1 ++ b2) = upsertAll (upsertAll s b1) b2 := by
  simp [upsertAll, List.foldl_append]

theorem keysOf_cons (p : K × V) (t : List (K × V)) :
    keysOf (p :: t) = p.1 :: keysOf t := rfl

theorem lookupK_eq_none_iff (s : List (K × V)) (k : K) :
    lookupK s k = none ↔ k ∉ keysOf s := by
  induction s with
  | nil => simp [lookupK, keysOf]
  | cons p t ih =>
    rw [keysOf_cons]
    by_cases h : p.1 = k
    · simp [lookupK, h]
    · simp [lookupK, h, ih, List.mem_cons, Ne.symm h]

theorem lookupK_isSome_iff (s : List (K × V)) (k : K) :
    (lookupK s k).isSome = true ↔ k ∈ keysOf s := by
  rw [Option.isSome_iff_ne_none]
  rw [ne_eq, lookupK_eq_none_iff]
  exact not_not

theorem keysOf_mapReplace (s : List (K × V)) (k : K) (v : V) :
    keysOf (s.map (fun p => if p.1 = k then (k, v) else p)) = keysOf s := by
  induction s with
  | nil => rfl
  | cons p t ih =>
    by_cases h : p.1 = k <;> simp [keysOf, h, ih] <;> simp [keysOf] at ih <;>
      simpa [h] using ih

theorem keysOf_append (s t : List (K × V)) :
    keysOf (s ++ t) = keysOf s ++ keysOf t := by
  simp [keysOf]

theorem keysOf_upsert (s : List (K × V)) (k : K) (v : V) :
    keysOf (upsert s k v) =
      if k ∈ keysOf s then keysOf s else keysOf s ++ [k] := by
  unfold upsert
  by_cases h : k ∈ keysOf s
  · rw [if_pos ((lookupK_isSome_iff s k).mpr h), if_pos h, keysOf_mapReplace]
  · rw [if_neg, if_neg h, keysOf_append]
    · rfl
    · rw [lookupK_isSome_iff]; exact h

theorem nodupKeys_upsert {s : List (K × V)} (h : NodupKeys s) (k : K) (v : V) :
    NodupKeys (upsert s k v) := by
  unfold NodupKeys at h ⊢
  rw [keysOf_upsert]
  by_cases hk : k ∈ keysOf s
  · rwa [if_pos hk]
  · rw [if_neg hk]
    simp [List.nodup_append, h, hk]

theorem lookupK_mapReplace_self {s : List (K × V)} {k : K} (v : V)
    (h : (lookupK s k).isSome = true) :
    lookupK (s.map (fun p => if p.1 = k then (k, v) else p)) k = some v := by
  induction s with
  | nil => simp [lookupK] at h
  | cons p t ih =>
    by_cases hp : p.1 = k
    · simp [lookupK, hp]
    · simp only [lookupK, hp, if_false] at h
      simpa [lookupK, hp] using ih h

theorem lookupK_mapReplace_other {s : List (K × V)} {k k' : K} (v : V)
    (h : k' ≠ k) :
    lookupK (s.map (fun p => if p.1 = k then (k, v) else p)) k' =
      lookupK s k' := by
  induction s with
  | nil => rfl
  | cons p t ih =>
    by_cases hp : p.1 = k
    · have h1 : p.1 ≠ k' := by rw [hp]; exact fun hh => h hh.symm
      have h2 : k ≠ k' := fun hh => h hh.symm
      simp [lookupK, hp, h1, h2, ih]
    · by_cases hp' : p.1 = k' <;> simp [lookupK, hp, hp', h, ih]

theorem lookupK_append_single {s : List (K × V)} {k : K} (v : V) (k' : K)
    (h : lookupK s k = none) :
    lookupK (s ++ [(k, v)]) k' =
      if k' = k then some v else lookupK s k' := by
  induction s with
  | nil => simp [lookupK, eq_comm]
  | cons p t ih =>
    have hp : p.1 ≠ k := by
      intro hh
      simp [lookupK, hh] at h
    have ht : lookupK t k = none := by
      simpa [lookupK, hp] using h
    by_cases hp' : p.1 = k'
    · have : k' ≠ k := fun hh => hp (hp'.trans hh)
      simp [lookupK, hp', this]
    · simp [lookupK, hp', ih ht]

theorem lookupK_upsert (s : List (K × V)) (k : K) (v : V) (k' : K) :
    lookupK (upsert s k v) k' = if k' = k then some v else lookupK s k' := by
  unfold upsert
  by_cases h : (lookupK s k).isSome = true
  · rw [if_pos h]
    by_cases hk : k' = k
    · rw [if_pos hk, hk, lookupK_mapReplace_self v h]
    · rw [if_neg hk, lookupK_mapReplace_other v hk]
  · rw [if_neg h]
    exact lookupK_append_single v k' (Option.not_isSome_iff_eq_none.mp h)

theorem lastVal_isSome_iff (b : List (K × V)) (k : K) :
    (lastVal b k).isSome = true ↔ k ∈ keysOf b := by
  induction b with
  | nil => simp [lastVal, keysOf]
  | cons p t ih =>
    rw [keysOf_cons, List.mem_cons]
    cases hlv : lastVal t k with
    | some v =>
      have : k ∈ keysOf t := ih.mp (by simp [hlv])
      simp [lastVal, hlv, this]
    | none =>
      have hnt : k ∉ keysOf t := fun hm => by
        have := ih.mpr hm
        simp [hlv] at this
      by_cases hp : p.1 = k
      · simp [lastVal, hlv, hp]
      · simp [lastVal, hlv, hp, hnt, Ne.symm hp]

theorem lookupK_upsertAll (b : List (K × V)) (s : List (K × V)) (k : K) :
    lookupK (upsertAll s b) k = (lastVal b k).or (lookupK s k) := by
  induction b generalizing s with
  | nil => simp [upsertAll, lastVal]
  | cons p t ih =>
    rw [upsertAll_cons, ih]
    show _ = (lastVal (p :: t) k).or _
    cases hlv : lastVal t k with
    | some v => simp [lastVal, hlv]
    | none =>
      rw [lookupK_upsert]
      by_cases hp : p.1 = k
      · simp [lastVal, hlv, hp]
      · simp [lastVal, hlv, hp, Ne.symm hp]

theorem mem_keysOf_upsertAll {s : List (K × V)} {k : K}
    (h : k ∈ keysOf s) (b : List (K × V)) :
    k ∈ keysOf (upsertAll s b) := by
  induction b generalizing s with
  | nil => exact h
  | cons p t ih =>
    rw [upsertAll_cons]
    apply ih
    rw [keysOf_upsert]
    by_cases hp : k ∈ keysOf s <;>
      first
        | (rw [if_pos hp]; exact h)
        | (by_cases hq : p.1 ∈ keysOf s <;> simp [hq, h])

theorem mem_keysOf_upsertAll_of_batch {b : List (K × V)} {k : K}
    (h : k ∈ keysOf b) (s : List (K × V)) :
    k ∈ keysOf (upsertAll s b) := by
  obtain ⟨v, hv⟩ := Option.isSome_iff_exists.mp ((lastVal_isSome_iff b k).mpr h)
  rw [← lookupK_isSome_iff, lookupK_upsertAll, hv]
  rfl

theorem keysOf_upsertAll_covered {b s : List (K × V)}
    (h : ∀ p ∈ b, p.1 ∈ keysOf s) :
    keysOf (upsertAll s b) = keysOf s := by
  induction b generalizing s with
  | nil => rfl
  | cons p t ih =>
    rw [upsertAll_cons]
    have hp : p.1 ∈ keysOf s := h p (by simp)
    have hkeys : keysOf (upsert s p.1 p.2) = keysOf s := by
      rw [keysOf_upsert, if_pos hp]
    rw [ih, hkeys]
    intro q hq
    rw [hkeys]
    exact h q (by simp [hq])

theorem nodupKeys_upsertAll {s : List (K × V)} (h : NodupKeys s)
    (b : List (K × V)) : NodupKeys (upsertAll s b) := by
  induction b generalizing s with
  | nil => exact h
  | cons p t ih => exact ih (nodupKeys_upsert h p.1 p.2)

theorem eq_of_keysOf_eq_of_lookupK_eq :
    ∀ {m1 m2 : List (K × V)}, NodupKeys m1 → keysOf m1 = keysOf m2 →
      (∀ k, lookupK m1 k = lookupK m2 k) → m1 = m2 := by
  intro m1
  induction m1 with
  | nil =>
    intro m2 _ hkeys _
    cases m2 with
    | nil => rfl
    | cons p t => simp [keysOf] at hkeys
  | cons p t ih =>
    intro m2 hnd hkeys hlook
    cases m2 with
    | nil => simp [keysOf] at hkeys
    | cons q u =>
      rw [keysOf_cons, keysOf_cons] at hkeys
      injection hkeys with hk hu
      have hv : p.2 = q.2 := by
        have := hlook p.1
        simp [lookupK, hk.symm] at this
        exact this
      unfold NodupKeys at hnd
      rw [keysOf_cons, List.nodup_cons] at hnd
      obtain ⟨hmem, hndt⟩ := hnd
      have htails : ∀ k, lookupK t k = lookupK u k := by
        intro k
        by_cases hpk : p.1 = k
        · rw [← hpk]
          rw [(lookupK_eq_none_iff t p.1).mpr hmem]
          symm
          rw [lookupK_eq_none_iff, ← hu]
          exact hmem
        · have := hlook k
          simpa [lookupK, hpk, hk ▸ hpk] using this
      have htu : t = u := ih hndt hu htails
      cases p with
      | mk pk pv =>
        cases q with
        | mk qk qv =>
          simp only at hk hv
          rw [hk, hv, htu]

theorem upsertAll_idem {s : List (K × V)} (h : NodupKeys s)
    (b : List (K × V)) :
    upsertAll (upsertAll s b) b = upsertAll s b := by
  apply eq_of_keysOf_eq_of_lookupK_eq
    (nodupKeys_upsertAll (nodupKeys_upsertAll h b) b)
  · apply keysOf_upsertAll_covered
    intro p hp
    exact mem_keysOf_upsertAll_of_batch (by simp [keysOf]; exact ⟨p.2, hp⟩) s
  · intro k
    rw [lookupK_upsertAll, lookupK_upsertAll]
    cases lastVal b k <;> rfl

end AssocMapLemmas

/- ===== Flush characterization ===== -/

/-- Node rows keyed by `variant_id`, as merged by `batch_insert_variants`. -/
def keyedNodes (ns : List VariantNodeData) : List (Str × VariantNodeData) :=
  ns.map (fun n => (n.variant_id, n))

/-- Edge rows that survive the germplasm `MATCH`, keyed by the
(germplasm, variant) pair. -/
def keyedRels (germs : List Str) (rels : List GenotypeRel) :
    List ((Str × Str) × EdgeProps) :=
  (rels.filter (fun r => decide (r.from_id ∈ germs))).map
    (fun r => ((r.from_id, r.to_id),
      { genotype := r.genotype
        dosage := r.dosage
        quality_score := r.quality_score }))

/-- A flush is self-contained when every edge references a node of the
same flush. -/
def SelfContained (f : List VariantNodeData × List GenotypeRel) : Prop :=
  ∀ r ∈ f.2, r.to_id ∈ f.1.map (fun n => n.variant_id)

theorem keysOf_keyedNodes (ns : List VariantNodeData) :
    keysOf (keyedNodes ns) = ns.map (fun n => n.variant_id) := by
  simp [keysOf, keyedNodes]

theorem batch_insert_variants_eq (st : Store) (ns : List VariantNodeData) :
    batch_insert_variants st ns =
      { st with nodes := upsertAll st.nodes (keyedNodes ns) } := rfl

theorem relsFold_eq_upsertAll (germs : List Str)
    (nodes : List (Str × VariantNodeData)) :
    ∀ (rels : List GenotypeRel) (es : List ((Str × Str) × EdgeProps)),
      (∀ r ∈ rels, (lookupK nodes r.to_id).isSome = true) →
      rels.foldl
        (fun es r =>
          if r.from_id ∈ germs ∧ (lookupK nodes r.to_id).isSome then
            upsert es (r.from_id, r.to_id)
              { genotype := r.genotype
                dosage := r.dosage
                quality_score := r.quality_score }
          else es)
        es = upsertAll es (keyedRels germs rels) := by
  intro rels
  induction rels with
  | nil => intro es _; rfl
  | cons r t ih =>
    intro es h
    have hr : (lookupK nodes r.to_id).isSome = true := h r (by simp)
    have ht : ∀ q ∈ t, (lookupK nodes q.to_id).isSome = true :=
      fun q hq => h q (by simp [hq])
    by_cases hg : r.from_id ∈ germs
    · simp only [List.foldl_cons, if_pos (And.intro hg hr)]
      rw [ih _ ht]
      have : keyedRels germs (r :: t) =
          ((r.from_id, r.to_id),
            ({ genotype := r.genotype
               dosage := r.dosage
               quality_score := r.quality_score } : EdgeProps)) ::
            keyedRels germs t := by
        simp [keyedRels, hg]
      rw [this, upsertAll_cons]
    · have hcond : ¬(r.from_id ∈ germs ∧ (lookupK nodes r.to_id).isSome) :=
        fun hc => hg hc.1
      simp only [List.foldl_cons, if_neg hcond]
      rw [ih _ ht]
      have : keyedRels germs (r :: t) = keyedRels germs t := by
        simp [keyedRels, hg]
      rw [this]

theorem batch_insert_rels_eq (st : Store) (rels : List GenotypeRel)
    (h : ∀ r ∈ rels, (lookupK st.nodes r.to_id).isSome = true) :
    batch_insert_genotype_relationships st rels =
      { st with edges := upsertAll st.edges (keyedRels st.germs rels) } := by
  unfold batch_insert_genotype_relationships
  rw [relsFold_eq_upsertAll st.germs st.nodes rels st.edges h]

theorem applyFlush_char (st : Store)
    (f : List VariantNodeData × List GenotypeRel) (hsc : SelfContained f) :
    applyFlush st f =
      { nodes := upsertAll st.nodes (keyedNodes f.1)
        edges := upsertAll st.edges (keyedRels st.germs f.2)
        germs := st.germs } := by
  unfold applyFlush
  rw [batch_insert_variants_eq]
  rw [batch_insert_rels_eq]
  intro r hr
  rw [lookupK_isSome_iff]
  apply mem_keysOf_upsertAll_of_batch
  rw [keysOf_keyedNodes]
  exact hsc r hr

theorem applyFlush_germs (st : Store)
    (f : List VariantNodeData × List GenotypeRel) :
    (applyFlush st f).germs = st.germs := rfl

/- ===== process_vcf_batch lemmas ===== -/

theorem mkGenotypeRel_to_id {tid : Str} {q : Option Str} {sid g : Str}
    {r : GenotypeRel} (h : mkGenotypeRel tid q sid g = some r) :
    r.to_id = tid := by
  unfold mkGenotypeRel at h
  split at h
  · injection h with h'
    rw [← h']
  · exact absurd h (by simp)

theorem relsOf_to_id {node : VariantNodeData} {v : VCFVariant}
    {r : GenotypeRel} (h : r ∈ relsOf node v) : r.to_id = node.variant_id := by
  unfold relsOf at h
  obtain ⟨p, _, hp⟩ := List.mem_filterMap.mp h
  exact mkGenotypeRel_to_id hp

theorem process_vcf_batch_selfContained :
    ∀ {b : List VCFVariant} {ns : List VariantNodeData}
      {es : List GenotypeRel},
      process_vcf_batch b = .ok (ns, es) → SelfContained (ns, es) := by
  intro b
  induction b with
  | nil =>
    intro ns es h
    injection h with h'
    injection h' with h1 h2
    rw [← h2]
    intro r hr
    exact absurd hr (by simp)
  | cons v rest ih =>
    intro ns es h
    cases hc : create_variant_node v with
    | error e => simp [process_vcf_batch, hc] at h
    | ok node =>
      cases hr : process_vcf_batch rest with
      | error e => simp [process_vcf_batch, hc, hr] at h
      | ok p =>
        simp only [process_vcf_batch, hc, hr] at h
        injection h with h'
        have h1 : node :: p.1 = ns := congrArg Prod.fst h'
        have h2 : relsOf node v ++ p.2 = es := congrArg Prod.snd h'
        intro r hrr
        rw [← h2] at hrr
        rw [← h1]
        rcases List.mem_append.mp hrr with hL | hR
        · simp [relsOf_to_id hL]
        · have hmem := @ih p.1 p.2 (by rw [hr]) r hR
          simp only [List.map_cons, List.mem_cons]
          exact Or.inr hmem

theorem process_vcf_batch_lengths :
    ∀ {b : List VCFVariant} {ns : List VariantNodeData}
      {es : List GenotypeRel},
      process_vcf_batch b = .ok (ns, es) → ns.length = b.length := by
  intro b
  induction b with
  | nil =>
    intro ns es h
    injection h with h'
    have h1 : ([] : List VariantNodeData) = ns := congrArg Prod.fst h'
    rw [← h1]
    rfl
  | cons v rest ih =>
    intro ns es h
    cases hc : create_variant_node v with
    | error e => simp [process_vcf_batch, hc] at h
    | ok node =>
      cases hr : process_vcf_batch rest with
      | error e => simp [process_vcf_batch, hc, hr] at h
      | ok p =>
        simp only [process_vcf_batch, hc, hr] at h
        injection h with h'
        have h1 : node :: p.1 = ns := congrArg Prod.fst h'
        rw [← h1]
        simp [@ih p.1 p.2 (by rw [hr])]

theorem process_vcf_batch_ok_of_nodes :
    ∀ {b : List VCFVariant},
      (∀ v ∈ b, ∃ n, create_variant_node v = .ok n) →
      ∃ ns es, process_vcf_batch b = .ok (ns, es) := by
  intro b
  induction b with
  | nil => intro _; exact ⟨[], [], rfl⟩
  | cons v rest ih =>
    intro h
    obtain ⟨n, hn⟩ := h v (by simp)
    obtain ⟨ns, es, hrest⟩ := ih (fun w hw => h w (by simp [hw]))
    refine ⟨n :: ns, relsOf n v ++ es, ?_⟩
    simp [process_vcf_batch, hn, hrest]

/- ===== Staging: a run is its store-free script applied to the store ===== -/

theorem applyFlushes_nil (st : Store) : applyFlushes st [] = st := rfl

theorem applyFlushes_cons (st : Store)
    (f : List VariantNodeData × List GenotypeRel)
    (fs : List (List VariantNodeData × List GenotypeRel)) :
    applyFlushes st (f :: fs) = applyFlushes (applyFlush st f) fs := rfl

theorem ingestLoop_eq_script (samples : List Str) (bs : Nat)
    (mv : Option Nat) :
    ∀ (lines : List Str) (st : Store) (stats : ProcessingStats)
      (batch : List VCFVariant),
      ingestLoop samples bs mv lines st stats batch =
        (scriptLoop samples bs mv lines stats batch).map
          (fun p => (applyFlushes st p.1, p.2)) := by
  intro lines
  induction lines with
  | nil =>
    intro st stats batch
    simp only [ingestLoop, scriptLoop]
    by_cases hb : batch ≠ []
    · rw [if_pos hb, if_pos hb]
      cases hf : scriptFlush stats batch with
      | error e => simp [processAndInsertBatch, hf, Except.map]
      | ok p =>
        simp [processAndInsertBatch, hf, Except.map, applyFlushes]
    · rw [if_neg hb, if_neg hb]
      simp [Except.map, applyFlushes]
  | cons line rest ih =>
    intro st stats batch
    simp only [ingestLoop, scriptLoop]
    by_cases hh : pyStartsWith line (str "#") = true
    · rw [if_pos hh, if_pos hh]
      exact ih st stats batch
    · rw [if_neg hh, if_neg hh]
      cases hp : parse_vcf_line line samples with
      | error e => simp [Except.map]
      | ok ov =>
        cases ov with
        | none => exact ih st _ batch
        | some v =>
          simp only
          by_cases hbs : bs ≤ (batch ++ [v]).length
          · rw [if_pos hbs, if_pos hbs]
            cases hf : scriptFlush
                { stats with total_variants := stats.total_variants + 1 }
                (batch ++ [v]) with
            | error e => simp [processAndInsertBatch, hf, Except.map]
            | ok p =>
              simp only [processAndInsertBatch, hf]
              by_cases hmv : mvHit mv p.2.total_variants = true
              · rw [if_pos hmv, if_pos hmv]
                simp [Except.map, applyFlushes]
              · rw [if_neg hmv, if_neg hmv]
                rw [ih (applyFlush st p.1) p.2 []]
                cases scriptLoop samples bs mv rest p.2 [] with
                | error e => simp [Except.map]
                | ok q => simp [Except.map, applyFlushes_cons]
          · rw [if_neg hbs, if_neg hbs]
            by_cases hmv : mvHit mv (stats.total_variants + 1) = true
            · have hmv' :
                  mvHit mv
                    ({ stats with
                        total_variants :=
                          stats.total_variants + 1 }).total_variants = true :=
                hmv
              rw [if_pos hmv', if_pos hmv']
              cases hf : scriptFlush
                  { stats with total_variants := stats.total_variants + 1 }
                  (batch ++ [v]) with
              | error e => simp [processAndInsertBatch, hf, Except.map]
              | ok p =>
                simp [processAndInsertBatch, hf, Except.map, applyFlushes]
            · have hmv' :
                  ¬mvHit mv
                    ({ stats with
                        total_variants :=
                          stats.total_variants + 1 }).total_variants = true :=
                hmv
              rw [if_neg hmv', if_neg hmv']
              exact ih st _ (batch ++ [v])

theorem process_vcf_file_eq_script (st : Store) (lines : List Str)
    (mv : Option Nat) (bs : Nat) :
    process_vcf_file st lines mv bs =
      (scriptLoop (parse_vcf_header lines).1 bs mv lines ⟨0, 0, 0, 0⟩ []).map
        (fun p => (applyFlushes st p.1, p.2)) :=
  ingestLoop_eq_script (parse_vcf_header lines).1 bs mv lines st ⟨0, 0, 0, 0⟩ []

/- ===== Self-containment of every flushed batch ===== -/

theorem scriptFlush_selfContained {stats : ProcessingStats}
    {batch : List VCFVariant}
    {f : List VariantNodeData × List GenotypeRel} {s : ProcessingStats}
    (h : scriptFlush stats batch = .ok (f, s)) : SelfContained f := by
  unfold scriptFlush at h
  cases hb : process_vcf_batch batch with
  | error e => rw [hb] at h; exact absurd h (by simp)
  | ok p =>
    rw [hb] at h
    injection h with h'
    have hf : p = f := congrArg Prod.fst h'
    rw [← hf]
    exact process_vcf_batch_selfContained (by rw [hb])

theorem scriptLoop_selfContained (samples : List Str) (bs : Nat)
    (mv : Option Nat) :
    ∀ (lines : List Str) (stats : ProcessingStats) (batch : List VCFVariant)
      (fs : List (List VariantNodeData × List GenotypeRel))
      (s : ProcessingStats),
      scriptLoop samples bs mv lines stats batch = .ok (fs, s) →
      ∀ f ∈ fs, SelfContained f := by
  intro lines
  induction lines with
  | nil =>
    intro stats batch fs s h
    simp only [scriptLoop] at h
    by_cases hb : batch ≠ []
    · rw [if_pos hb] at h
      cases hf : scriptFlush stats batch with
      | error e => simp only [hf] at h; exact Except.noConfusion h
      | ok p =>
        obtain ⟨f1, s2⟩ := p
        simp only [hf] at h
        injection h with h'
        have h1 : [f1] = fs := congrArg Prod.fst h'
        intro f hmem
        rw [← h1] at hmem
        rcases List.mem_singleton.mp hmem with rfl
        exact scriptFlush_selfContained hf
    · rw [if_neg hb] at h
      injection h with h'
      have h1 : ([] : List (List VariantNodeData × List GenotypeRel)) = fs :=
        congrArg Prod.fst h'
      intro f hmem
      rw [← h1] at hmem
      exact absurd hmem (by simp)
  | cons line rest ih =>
    intro stats batch fs s h
    simp only [scriptLoop] at h
    by_cases hh : pyStartsWith line (str "#") = true
    · rw [if_pos hh] at h
      exact ih stats batch fs s h
    · rw [if_neg hh] at h
      cases hp : parse_vcf_line line samples with
      | error e => simp only [hp] at h; exact Except.noConfusion h
      | ok ov =>
        cases ov with
        | none =>
          simp only [hp] at h
          exact ih _ batch fs s h
        | some v =>
          simp only [hp] at h
          by_cases hbs : bs ≤ (batch ++ [v]).length
          · rw [if_pos hbs] at h
            cases hf : scriptFlush
                { stats with total_variants := stats.total_variants + 1 }
                (batch ++ [v]) with
            | error e => simp only [hf] at h; exact Except.noConfusion h
            | ok p =>
              obtain ⟨f1, s2⟩ := p
              simp only [hf] at h
              by_cases hmv : mvHit mv s2.total_variants = true
              · rw [if_pos hmv] at h
                injection h with h'
                have h1 : [f1] = fs := congrArg Prod.fst h'
                intro f hmem
                rw [← h1] at hmem
                rcases List.mem_singleton.mp hmem with rfl
                exact scriptFlush_selfContained hf
              · rw [if_neg hmv] at h
                cases hr : scriptLoop samples bs mv rest s2 [] with
                | error e => simp only [hr] at h; exact Except.noConfusion h
                | ok q =>
                  obtain ⟨fs2, s3⟩ := q
                  simp only [hr] at h
                  injection h with h'
                  have h1 : f1 :: fs2 = fs := congrArg Prod.fst h'
                  intro f hmem
                  rw [← h1] at hmem
                  rcases List.mem_cons.mp hmem with rfl | hmem'
                  · exact scriptFlush_selfContained hf
                  · exact ih s2 [] fs2 s3 hr f hmem'
          · rw [if_neg hbs] at h
            by_cases hmv :
                mvHit mv
                  ({ stats with
                      total_variants :=
                        stats.total_variants + 1 }).total_variants = true
            · rw [if_pos hmv] at h
              cases hf : scriptFlush
                  { stats with total_variants := stats.total_variants + 1 }
                  (batch ++ [v]) with
              | error e => simp only [hf] at h; exact Except.noConfusion h
              | ok p =>
                obtain ⟨f1, s2⟩ := p
                simp only [hf] at h
                injection h with h'
                have h1 : [f1] = fs := congrArg Prod.fst h'
                intro f hmem
                rw [← h1] at hmem
                rcases List.mem_singleton.mp hmem with rfl
                exact scriptFlush_selfContained hf
            · rw [if_neg hmv] at h
              exact ih _ (batch ++ [v]) fs s h

/- ===== Idempotence of re-applying the same flush script ===== -/

theorem applyFlushes_char :
    ∀ (fs : List (List VariantNodeData × List GenotypeRel)) (st : Store),
      (∀ f ∈ fs, SelfContained f) →
      applyFlushes st fs =
        { nodes :=
            upsertAll st.nodes (fs.flatMap (fun f => keyedNodes f.1))
          edges :=
            upsertAll st.edges
              (fs.flatMap (fun f => keyedRels st.germs f.2))
          germs := st.germs } := by
  intro fs
  induction fs with
  | nil => intro st _; rfl
  | cons f fs ih =>
    intro st h
    rw [applyFlushes_cons]
    rw [ih (applyFlush st f) (fun g hg => h g (by simp [hg]))]
    rw [applyFlush_char st f (h f (by simp))]
    simp only [List.flatMap_cons]
    rw [← upsertAll_append, ← upsertAll_append]

theorem applyFlushes_idem (st : Store)
    (fs : List (List VariantNodeData × List GenotypeRel))
    (h1 : NodupKeys st.nodes) (h2 : NodupKeys st.edges)
    (hsc : ∀ f ∈ fs, SelfContained f) :
    applyFlushes (applyFlushes st fs) fs = applyFlushes st fs := by
  rw [applyFlushes_char fs st hsc]
  rw [applyFlushes_char fs _ hsc]
  simp only
  rw [upsertAll_idem h1, upsertAll_idem h2]

/-- Claim C1: ingesting the same source twice leaves the store — and
therefore the variant-node and edge counts — exactly as after a single
ingestion: re-running `process_vcf_file` on the store it produced returns
that same store (and the same statistics), because both node writes
(upsert keyed by `variant_id`) and edge writes (upsert keyed by the
(sample, variant) pair) are replay-idempotent. -/
theorem spec_C1_reingest_idempotent (store : Store) (lines : List Str)
    (mv : Option Nat) (bs : Nat) (st : Store) (s : ProcessingStats)
    (h1 : NodupKeys store.nodes) (h2 : NodupKeys store.edges)
    (hrun : process_vcf_file store lines mv bs = .ok (st, s)) :
    process_vcf_file st lines mv bs = .ok (st, s) := by
  rw [process_vcf_file_eq_script] at hrun ⊢
  cases hs : scriptLoop (parse_vcf_header lines).1 bs mv lines ⟨0, 0, 0, 0⟩ []
    with
  | error e =>
    rw [hs] at hrun
    exact Except.noConfusion hrun
  | ok p =>
    obtain ⟨fs, s'⟩ := p
    rw [hs] at hrun
    simp only [Except.map] at hrun
    injection hrun with h'
    have hst : applyFlushes store fs = st := congrArg Prod.fst h'
    have hss : s' = s := congrArg Prod.snd h'
    have hsc : ∀ f ∈ fs, SelfContained f :=
      scriptLoop_selfContained (parse_vcf_header lines).1 bs mv lines
        ⟨0, 0, 0, 0⟩ [] fs s' hs
    simp only [Except.map]
    rw [← hst, applyFlushes_idem store fs h1 h2 hsc, hss]

/-- A two-line input for exercising the pipeline: a sample-list header
naming `S1` and one data line with genotype `0/1`. -/
def c1Lines : List Str :=
  [str "#CHROM\tPOS\tID\tREF\tALT\tQUAL\tFILTER\tINFO\tFORMAT\tS1",
   str "1\t5\t.\tA\tG\t.\tP\t.\tGT\t0/1"]

/-- An initial store holding only the germplasm `S1`. -/
def c1Store0 : Store := ⟨[], [], [str "S1"]⟩

/-- The variant node the pipeline builds for the data line of `c1Lines`. -/
def c1Node : VariantNodeData :=
  ⟨str "1_5_A_G", str "1_5", str "1", 5, str "A", str "G", str "SNP",
   none, str "P", none, none⟩

/-- The store after ingesting `c1Lines` once into `c1Store0`. -/
def c1Store1 : Store :=
  ⟨[(str "1_5_A_G", c1Node)],
   [((str "S1", str "1_5_A_G"), ⟨str "0/1", 1, none⟩)],
   [str "S1"]⟩

/-- The statistics of that run. -/
def c1Stats : ProcessingStats := ⟨1, 1, 0, 1⟩

/-- Witness for C1: re-ingesting `c1Lines` into the store it produced
returns that store and the same statistics unchanged. -/
theorem spec_C1_reingest_idempotent_witness :
    process_vcf_file c1Store1 c1Lines none 10 = .ok (c1Store1, c1Stats) :=
  spec_C1_reingest_idempotent c1Store0 c1Lines none 10 c1Store1 c1Stats
    (by decide) (by decide) (by decide)

/- ===== C8: batch boundary integrity ===== -/

/-- Claim C8: node upserts precede edge upserts in a flush
(`applyFlush` composes them in that order), every relationship produced
by `process_vcf_batch` references a variant node of the same batch, and
consequently a flush against any store upserts all of its nodes and then
every edge whose germplasm exists — no edge waits for a node of a later
batch. -/
theorem spec_C8_flush_self_contained (b : List VCFVariant)
    (ns : List VariantNodeData) (es : List GenotypeRel)
    (h : process_vcf_batch b = .ok (ns, es)) :
    (∀ r ∈ es, r.to_id ∈ ns.map (fun n => n.variant_id)) ∧
    ∀ st : Store,
      applyFlush st (ns, es) =
        { nodes := upsertAll st.nodes (keyedNodes ns)
          edges := upsertAll st.edges (keyedRels st.germs es)
          germs := st.germs } := by
  have hsc := process_vcf_batch_selfContained h
  exact ⟨hsc, fun st => applyFlush_char st (ns, es) hsc⟩

/-- A one-variant batch for exercising the flush lemma. -/
def c8V : VCFVariant :=
  ⟨str "c", 7, str "v8", str "A", [str "T"], none, str "P", [],
   [(str "S1", str "1/1")]⟩

/-- The node row `process_vcf_batch` builds for `c8V`. -/
def c8Node : VariantNodeData :=
  ⟨str "c_7_A_T", str "v8", str "c", 7, str "A", str "T", str "SNP",
   none, str "P", none, none⟩

/-- The edge row `process_vcf_batch` builds for `c8V`. -/
def c8Es : List GenotypeRel :=
  [⟨str "S1", str "c_7_A_T", str "1/1", 2, none⟩]

/-- A store for exercising the flush lemma. -/
def c8St : Store := ⟨[], [], [str "S1"]⟩

/-- Witness for C8: flushing the concrete one-variant batch writes its
node and then its germplasm-matched edge. -/
theorem spec_C8_flush_self_contained_witness :
    applyFlush c8St ([c8Node], c8Es) =
      { nodes := upsertAll c8St.nodes (keyedNodes [c8Node])
        edges := upsertAll c8St.edges (keyedRels c8St.germs c8Es)
        germs := c8St.germs } :=
  (spec_C8_flush_self_contained [c8V] [c8Node] c8Es (by decide)).2 c8St

/- ===== C2 / C3: the genotype encoder ===== -/

theorem length_filterMap_eq_countP {α β : Type} (f : α → Option β) :
    ∀ l : List α, (l.filterMap f).length = l.countP (fun a => (f a).isSome) := by
  intro l
  induction l with
  | nil => rfl
  | cons a t ih =>
    cases hf : f a with
    | none => simp [List.filterMap_cons, hf, ih, List.countP_cons]
    | some b => simp [List.filterMap_cons, hf, ih, List.countP_cons]

theorem countP_ext {α : Type} (p q : α → Bool) :
    ∀ l : List α, (∀ a ∈ l, p a = q a) → l.countP p = l.countP q := by
  intro l
  induction l with
  | nil => intro _; rfl
  | cons a t ih =>
    intro h
    rw [List.countP_cons, List.countP_cons, h a (by simp),
      ih (fun b hb => h b (by simp [hb]))]

/-- Claim C2 (amended): the pipeline creates an edge for a
(sample, genotype) pair exactly when the raw genotype string is non-empty
and differs from `./.` and `.` — there is no numeric validation, so
`.|.` and `x/1` are not skipped. -/
theorem spec_C2_skip_guard_amended :
    (∀ (tid : Str) (q : Option Str) (sid g : Str),
        (mkGenotypeRel tid q sid g).isSome = true ↔
          (g ≠ [] ∧ g ≠ str "./." ∧ g ≠ str ".")) ∧
    (∀ (v : VCFVariant) (ns : List VariantNodeData) (es : List GenotypeRel),
        process_vcf_batch [v] = .ok (ns, es) →
        es.length =
          v.genotypes.countP
            (fun p =>
              decide (p.2 ≠ [] ∧ p.2 ≠ str "./." ∧ p.2 ≠ str "."))) := by
  constructor
  · intro tid q sid g
    unfold mkGenotypeRel
    split
    · next hg => simpa using hg
    · next hg => simpa using hg
  · intro v ns es h
    cases hc : create_variant_node v with
    | error e => simp [process_vcf_batch, hc] at h
    | ok node =>
      simp only [process_vcf_batch, hc] at h
      injection h with h'
      have h2 : relsOf node v ++ [] = es := congrArg Prod.snd h'
      rw [← h2, List.append_nil]
      unfold relsOf
      rw [length_filterMap_eq_countP]
      apply countP_ext
      intro p _
      by_cases hP : (p.2 ≠ [] ∧ p.2 ≠ str "./." ∧ p.2 ≠ str ".")
      · simp only [decide_eq_true hP]
        unfold mkGenotypeRel
        rw [if_pos hP]
        rfl
      · rw [decide_eq_false hP]
        unfold mkGenotypeRel
        rw [if_neg hP]
        rfl

/-- The variant used to refute C2 as stated. -/
def c2V : VCFVariant :=
  ⟨str "c1", 100, str "v", str "A", [str "G"], some (str "30"), str "PASS",
   [], [(str "S1", str ".|."), (str "S2", str "x/1"), (str "S3", str "./.")]⟩

/-- The node row built for `c2V`. -/
def c2Node : VariantNodeData :=
  ⟨str "c1_100_A_G", str "v", str "c1", 100, str "A", str "G", str "SNP",
   some (str "30"), str "PASS", none, none⟩

/-- Counterexample to C2 as stated: the genotypes `.|.` and `x/1` are not
skipped — each produces an edge (with dosage 0 and 1 respectively); only
`./.` is skipped. -/
theorem spec_C2_counterexample :
    process_vcf_batch [c2V] =
      .ok ([c2Node],
        [⟨str "S1", str "c1_100_A_G", str ".|.", 0, some (str "30")⟩,
         ⟨str "S2", str "c1_100_A_G", str "x/1", 1, some (str "30")⟩]) := by
  decide

/-- A variant with one kept and one skipped genotype. -/
def c2WV : VCFVariant :=
  ⟨str "c2", 9, str "w", str "A", [str "C"], none, str "P", [],
   [(str "S1", str "0/1"), (str "S2", str "./.")]⟩

/-- The edge rows built for `c2WV`. -/
def c2WEs : List GenotypeRel := [⟨str "S1", str "c2_9_A_C", str "0/1", 1, none⟩]

/-- Witness for the amended C2 at `c2WV`: one of its two genotypes passes
the guard. -/
theorem spec_C2_skip_guard_amended_witness :
    c2WEs.length =
      c2WV.genotypes.countP
        (fun p => decide (p.2 ≠ [] ∧ p.2 ≠ str "./." ∧ p.2 ≠ str ".")) :=
  spec_C2_skip_guard_amended.2 c2WV
    [⟨str "c2_9_A_C", str "w", str "c2", 9, str "A", str "C", str "SNP",
      none, str "P", none, none⟩]
    c2WEs (by decide)

theorem foldl_count {α : Type} (p : α → Bool) :
    ∀ (l : List α) (n : Nat),
      l.foldl (fun d a => if p a then d + 1 else d) n = n + l.countP p := by
  intro l
  induction l with
  | nil => intro n; simp
  | cons a t ih =>
    intro n
    by_cases ha : p a = true
    · simp only [List.foldl_cons, ha, if_true, List.countP_cons, ih]
      omega
    · have ha' : p a = false := by revert ha; cases p a <;> simp
      simp [List.foldl_cons, ha', List.countP_cons, ih]

theorem dosageOf_eq_countP (g : Str) :
    dosageOf g = (pySplit (pyReplacePipe g) '/').countP alleleCounts := by
  unfold dosageOf
  rw [foldl_count]
  omega

/-- Claim C3: for every genotype string accepted as valid (one that
passes the skip guard), the edge's dosage equals the number of allele
tokens — after unifying `|` to `/` and splitting on `/` — that are
numeric and strictly greater than zero, with no cap beyond diploid:
`0/1` gives 1, `1/1` gives 2, `2|0` gives 1, and triploid `1/1/1`
gives 3. -/
theorem spec_C3_dosage_correct :
    (∀ (tid : Str) (q : Option Str) (sid g : Str),
        (g ≠ [] ∧ g ≠ str "./." ∧ g ≠ str ".") →
        (mkGenotypeRel tid q sid g).map (fun r => r.dosage) =
          some ((pySplit (pyReplacePipe g) '/').countP alleleCounts)) ∧
    dosageOf (str "0/1") = 1 ∧ dosageOf (str "1/1") = 2 ∧
    dosageOf (str "2|0") = 1 ∧ dosageOf (str "1/1/1") = 3 := by
  refine ⟨?_, by decide, by decide, by decide, by decide⟩
  intro tid q sid g hg
  unfold mkGenotypeRel
  rw [if_pos hg]
  exact congrArg some (dosageOf_eq_countP g)

/-- Witness for C3 at genotype `0/1`. -/
theorem spec_C3_dosage_correct_witness :
    (mkGenotypeRel (str "V") none (str "S") (str "0/1")).map
        (fun r => r.dosage) =
      some ((pySplit (pyReplacePipe (str "0/1")) '/').countP alleleCounts) :=
  spec_C3_dosage_correct.1 (str "V") none (str "S") (str "0/1") (by decide)

/- ===== C10: the normalized key is length-bounded ===== -/

theorem hexOfBytes_length :
    ∀ bs : List Nat, (hexOfBytes bs).length = 2 * bs.length := by
  intro bs
  induction bs with
  | nil => rfl
  | cons b t ih =>
    show (byteHex b ++ hexOfBytes t).length = 2 * (b :: t).length
    rw [List.length_append, ih]
    simp [byteHex]
    omega

theorem md5Bytes_length (msg : List Nat) : (md5Bytes msg).length = 16 := by
  simp [md5Bytes, wordLE]

theorem md5hex_length (s : Str) : (md5hex s).length = 32 := by
  unfold md5hex
  rw [hexOfBytes_length, md5Bytes_length]

theorem rawVariantId_length_pos (v : VCFVariant) :
    0 < (rawVariantId v).length := by
  unfold rawVariantId
  simp [List.length_append]

/-- Claim C10: `normalize_variant_id` always returns a non-empty key of
at most 100 characters; a concatenated key longer than 100 characters is
replaced by the 20-character string `VAR_` followed by the first 16 hex
digits of the key's MD5 digest. -/
theorem spec_C10_key_bounded (v : VCFVariant) :
    ((normalize_variant_id v).length ≤ 100 ∧ normalize_variant_id v ≠ []) ∧
    (100 < (rawVariantId v).length →
      normalize_variant_id v =
        str "VAR_" ++ (md5hex (rawVariantId v)).take 16 ∧
      (normalize_variant_id v).length = 20) := by
  unfold normalize_variant_id
  by_cases h : 100 < (rawVariantId v).length
  · rw [if_pos h]
    have hlen :
        (str "VAR_" ++ (md5hex (rawVariantId v)).take 16).length = 20 := by
      rw [List.length_append, List.length_take, md5hex_length]
      rfl
    refine ⟨⟨by rw [hlen]; omega, ?_⟩, fun _ => ⟨rfl, hlen⟩⟩
    intro hc
    rw [hc] at hlen
    exact absurd hlen (by decide)
  · rw [if_neg h]
    have hpos := rawVariantId_length_pos v
    refine ⟨⟨by omega, ?_⟩, fun hc => absurd hc h⟩
    intro hc
    rw [hc] at hpos
    exact absurd hpos (by decide)

/-- A variant whose concatenated key has 109 characters. -/
def c10V : VCFVariant :=
  ⟨List.replicate 101 'C', 1, str "v", str "A", [str "G"], none, str "P",
   [], []⟩

/-- Witness for C10: the over-long key of `c10V` is replaced by the
20-character `VAR_`-prefixed MD5 prefix. -/
theorem spec_C10_key_bounded_witness :
    normalize_variant_id c10V =
      str "VAR_" ++ (md5hex (rawVariantId c10V)).take 16 ∧
    (normalize_variant_id c10V).length = 20 :=
  (spec_C10_key_bounded c10V).2 (by decide)

/- ===== C4: determinism and (bounded) injectivity of the normalizer ===== -/

theorem sep_cancel (c : Char) :
    ∀ (a b t1 t2 : Str), c ∉ a → c ∉ b →
      a ++ c :: t1 = b ++ c :: t2 → a = b ∧ t1 = t2 := by
  intro a
  induction a with
  | nil =>
    intro b t1 t2 _ hb h
    cases b with
    | nil =>
      simp only [List.nil_append] at h
      injection h with _ h2
      exact ⟨rfl, h2⟩
    | cons x b' =>
      simp only [List.nil_append, List.cons_append] at h
      injection h with h1 _
      exact absurd (by rw [h1]; exact List.mem_cons_self x b') hb
  | cons y a' ih =>
    intro b t1 t2 ha hb h
    cases b with
    | nil =>
      simp only [List.cons_append, List.nil_append] at h
      injection h with h1 _
      exact absurd (by rw [← h1]; exact List.mem_cons_self y a') ha
    | cons x b' =>
      simp only [List.cons_append] at h
      injection h with h1 h2
      have ha' : c ∉ a' := fun hm => ha (List.mem_cons_of_mem _ hm)
      have hb' : c ∉ b' := fun hm => hb (List.mem_cons_of_mem _ hm)
      obtain ⟨he, ht⟩ := ih b' t1 t2 ha' hb' h2
      exact ⟨by rw [h1, he], ht⟩

theorem pyJoinU_inj :
    ∀ (l1 l2 : List Str), l1 ≠ [] → l2 ≠ [] →
      (∀ a ∈ l1, '_' ∉ a) → (∀ a ∈ l2, '_' ∉ a) →
      pyJoinU l1 = pyJoinU l2 → l1 = l2 := by
  intro l1
  induction l1 with
  | nil => intro l2 h; exact absurd rfl h
  | cons a l1' ih =>
    intro l2 _ h2 hs1 hs2 hj
    cases l2 with
    | nil => exact absurd rfl h2
    | cons b l2' =>
      cases l1' with
      | nil =>
        cases l2' with
        | nil =>
          have : a = b := hj
          rw [this]
        | cons b2 t2 =>
          have hmem : '_' ∈ a := by
            show '_' ∈ pyJoinU [a]
            rw [hj]
            show '_' ∈ b ++ '_' :: pyJoinU (b2 :: t2)
            exact List.mem_append_right _ (List.mem_cons_self _ _)
          exact absurd hmem (hs1 a (by simp))
      | cons a2 t1 =>
        cases l2' with
        | nil =>
          have hmem : '_' ∈ b := by
            show '_' ∈ pyJoinU [b]
            rw [← hj]
            show '_' ∈ a ++ '_' :: pyJoinU (a2 :: t1)
            exact List.mem_append_right _ (List.mem_cons_self _ _)
          exact absurd hmem (hs2 b (by simp))
        | cons b2 t2 =>
          have hj' : a ++ '_' :: pyJoinU (a2 :: t1) =
              b ++ '_' :: pyJoinU (b2 :: t2) := hj
          obtain ⟨he, ht⟩ :=
            sep_cancel '_' a b _ _ (hs1 a (by simp)) (hs2 b (by simp)) hj'
          have htail : a2 :: t1 = b2 :: t2 :=
            ih (b2 :: t2) (by simp) (by simp)
              (fun x hx => hs1 x (by simp [hx]))
              (fun x hx => hs2 x (by simp [hx])) ht
          rw [he, htail]

/-- Claim C4 (amended): the normalizer is a pure total function and is
deterministic in (chromosome, position, ref, alts); but injectivity on
alt-allele sets at a fixed locus holds only when both alt lists are
non-empty, no alt allele contains the `_` separator, and both
concatenated keys are within the 100-character bound — outside these
provisos distinct alt sets can collide (e.g. `[G_T]` vs `[G, T]`),
beyond the documented reference-only collision. -/
theorem spec_C4_normalize_amended :
    (∀ v w : VCFVariant, v.chromosome = w.chromosome →
       v.position = w.position → v.ref_allele = w.ref_allele →
       v.alt_alleles = w.alt_alleles →
       normalize_variant_id v = normalize_variant_id w) ∧
    (∀ v w : VCFVariant, v.chromosome = w.chromosome →
       v.position = w.position → v.ref_allele = w.ref_allele →
       v.alt_alleles ≠ [] → w.alt_alleles ≠ [] →
       (∀ a ∈ v.alt_alleles, '_' ∉ a) → (∀ a ∈ w.alt_alleles, '_' ∉ a) →
       (rawVariantId v).length ≤ 100 → (rawVariantId w).length ≤ 100 →
       normalize_variant_id v = normalize_variant_id w →
       v.alt_alleles = w.alt_alleles) := by
  constructor
  · intro v w h1 h2 h3 h4
    unfold normalize_variant_id rawVariantId
    rw [h1, h2, h3, h4]
  · intro v w h1 h2 h3 hne1 hne2 hs1 hs2 hl1 hl2 heq
    unfold normalize_variant_id at heq
    rw [if_neg (by omega), if_neg (by omega)] at heq
    unfold rawVariantId at heq
    rw [h1, h2, h3, if_pos hne1, if_pos hne2] at heq
    have e2 := List.append_cancel_left heq
    injection e2 with _ e3
    exact pyJoinU_inj _ _ hne1 hne2 hs1 hs2 e3

/-- First variant of the C4 counterexample: one alt allele `G_T`. -/
def c4V1 : VCFVariant :=
  ⟨str "chr1", 100, str "x", str "A", [str "G_T"], none, str "P", [], []⟩

/-- Second variant of the C4 counterexample: alt alleles `G` and `T`. -/
def c4V2 : VCFVariant :=
  ⟨str "chr1", 100, str "x", str "A", [str "G", str "T"], none, str "P",
   [], []⟩

/-- Counterexample to C4 as stated: two records at the same locus with
different non-empty alt-allele sets (`[G_T]` vs `[G, T]`) receive the
same key `chr1_100_A_G_T` — a collision outside the documented
reference-only policy. -/
theorem spec_C4_counterexample :
    normalize_variant_id c4V1 = normalize_variant_id c4V2 ∧
    c4V1.alt_alleles ≠ c4V2.alt_alleles ∧
    c4V1.alt_alleles ≠ [] ∧ c4V2.alt_alleles ≠ [] ∧
    c4V1.chromosome = c4V2.chromosome ∧ c4V1.position = c4V2.position ∧
    c4V1.ref_allele = c4V2.ref_allele := by decide

/-- A variant with alt allele `G` at locus chr1:5. -/
def c4W1 : VCFVariant :=
  ⟨str "chr1", 5, str "x", str "A", [str "G"], none, str "P", [], []⟩

/-- A variant with alt allele `T` at locus chr1:5. -/
def c4W2 : VCFVariant :=
  ⟨str "chr1", 5, str "x", str "A", [str "T"], none, str "P", [], []⟩

/-- Witness for the amended C4: within the provisos, distinct alt sets
give distinct keys. -/
theorem spec_C4_normalize_amended_witness :
    normalize_variant_id c4W1 ≠ normalize_variant_id c4W2 := fun h =>
  absurd
    (spec_C4_normalize_amended.2 c4W1 c4W2 rfl rfl rfl (by decide)
      (by decide) (by decide) (by decide) (by decide) (by decide) h)
    (by decide)

/- ===== C5 / C6: parser behavior ===== -/

/-- Claim C5 (amended): a line with fewer than 8 tab-separated fields is
returned as the `MalformedRecord` value (`None`) without raising, and a
line with at least 8 fields parses to a record provided its position
field is accepted by `int()` and its quality field is `.` or accepted by
`float()`; outside those provisos the parser raises, so it is not
exception-free on arbitrary 8-field lines. -/
theorem spec_C5_parse_totality_amended :
    (∀ (line : Str) (samples : List Str),
        (vcfFields line).length < 8 →
        parse_vcf_line line samples = .ok none) ∧
    (∀ (line : Str) (samples : List Str),
        8 ≤ (vcfFields line).length →
        (pyIntOf ((vcfFields line).getD 1 [])).isSome = true →
        ((vcfFields line).getD 5 [] = str "." ∨
          pyFloatOk ((vcfFields line).getD 5 []) = true) →
        ∃ v, parse_vcf_line line samples = .ok (some v)) := by
  constructor
  · intro line samples h
    simp only [parse_vcf_line]
    rw [if_pos h]
  · intro line samples h8 hint hqual
    obtain ⟨pos, hpos⟩ := Option.isSome_iff_exists.mp hint
    have hq : ∃ q, parseQual ((vcfFields line).getD 5 []) = .ok q := by
      unfold parseQual
      by_cases h5' : (vcfFields line).getD 5 [] = str "."
      · rw [if_pos h5']; exact ⟨none, rfl⟩
      · rcases hqual with h5 | h5
        · exact absurd h5 h5'
        · rw [if_neg h5', if_pos h5]; exact ⟨_, rfl⟩
    obtain ⟨q, hqe⟩ := hq
    simp only [parse_vcf_line]
    rw [if_neg (by omega)]
    simp only [hpos, hqe]
    exact ⟨_, rfl⟩

/-- Counterexample to C5 as stated: this line has exactly 8 fields, yet
the parser raises (`int('abc')`) instead of returning a record. -/
theorem spec_C5_counterexample :
    parse_vcf_line (str "chr1\tabc\t.\tA\tG\t30\tPASS\t.") [] =
      .error PyErr.valueError ∧
    8 ≤ (vcfFields (str "chr1\tabc\t.\tA\tG\t30\tPASS\t.")).length := by
  decide

/-- Witness for the amended C5: a 2-field line is returned as `None`, a
well-formed 8-field line parses. -/
theorem spec_C5_parse_totality_amended_witness :
    parse_vcf_line (str "a\tb") [] = .ok none ∧
    ∃ v, parse_vcf_line (str "1\t2\t.\tA\tG\t3.5\tP\t.") [] =
      .ok (some v) :=
  ⟨spec_C5_parse_totality_amended.1 (str "a\tb") [] (by decide),
   spec_C5_parse_totality_amended.2 (str "1\t2\t.\tA\tG\t3.5\tP\t.") []
     (by decide) (by decide) (Or.inr (by decide))⟩

/-- Claim C6 (amended): a data line with at least 8 fields whose quality
field is neither `.` nor accepted by `float()` makes the parser raise a
`ValueError` that nothing catches: no record is emitted for the line,
and a run over a stream containing it aborts instead of salvaging the
record with quality absent. -/
theorem spec_C6_bad_quality_raises_amended :
    (∀ (line : Str) (samples : List Str),
        8 ≤ (vcfFields line).length →
        (vcfFields line).getD 5 [] ≠ str "." →
        pyFloatOk ((vcfFields line).getD 5 []) = false →
        ∃ e, parse_vcf_line line samples = .error e) ∧
    (∀ (line : Str) (store : Store) (mv : Option Nat) (bs : Nat),
        8 ≤ (vcfFields line).length →
        (vcfFields line).getD 5 [] ≠ str "." →
        pyFloatOk ((vcfFields line).getD 5 []) = false →
        pyStartsWith line (str "#") = false →
        ∃ e, process_vcf_file store [line] mv bs = .error e) := by
  have part1 : ∀ (line : Str) (samples : List Str),
      8 ≤ (vcfFields line).length →
      (vcfFields line).getD 5 [] ≠ str "." →
      pyFloatOk ((vcfFields line).getD 5 []) = false →
      ∃ e, parse_vcf_line line samples = .error e := by
    intro line samples h8 h5 hf
    simp only [parse_vcf_line]
    rw [if_neg (by omega)]
    cases hint : pyIntOf ((vcfFields line).getD 1 []) with
    | none => exact ⟨.valueError, rfl⟩
    | some pos =>
      have hq : parseQual ((vcfFields line).getD 5 []) =
          .error .valueError := by
        unfold parseQual
        rw [if_neg h5, hf]
        simp
      refine ⟨.valueError, ?_⟩
      simp only [hq]
  refine ⟨part1, ?_⟩
  intro line store mv bs h8 h5 hf hstart
  obtain ⟨e, he⟩ := part1 line (parse_vcf_header [line]).1 h8 h5 hf
  refine ⟨e, ?_⟩
  simp only [process_vcf_file, ingestLoop, hstart, he]
  simp

/-- Counterexample to C6 as stated: a line whose quality field is the
non-numeric `QQ` is not emitted with quality absent — the parser raises
`ValueError`. -/
theorem spec_C6_counterexample :
    parse_vcf_line (str "chr1\t100\t.\tA\tG\tQQ\tPASS\t.") [] =
      .error PyErr.valueError := by decide

/-- Witness for the amended C6: a one-line stream with quality `zz`
aborts the run. -/
theorem spec_C6_bad_quality_raises_amended_witness :
    ∃ e, process_vcf_file ⟨[], [], []⟩ [str "1\t2\t.\tA\tG\tzz\tP\t."]
      none 10 = .error e :=
  spec_C6_bad_quality_raises_amended.2 (str "1\t2\t.\tA\tG\tzz\tP\t.")
    ⟨[], [], []⟩ none 10 (by decide) (by decide) (by decide) (by decide)

/- ===== C9: behavior when no sample-list header exists ===== -/

theorem parse_vcf_header_go_no_chrom :
    ∀ (lines : List Str) (md : List (Str × Str)),
      (∀ l ∈ lines, pyStartsWith l (str "#CHROM") = false) →
      (parse_vcf_header.go lines md).1 = [] := by
  intro lines
  induction lines with
  | nil => intro md _; rfl
  | cons l rest ih =>
    intro md h
    simp only [parse_vcf_header.go]
    by_cases h2 : pyStartsWith l (str "##") = true
    · rw [if_pos h2]
      exact ih _ (fun x hx => h x (by simp [hx]))
    · rw [if_neg h2, if_neg (by simp [h l (by simp)])]
      exact ih _ (fun x hx => h x (by simp [hx]))

theorem parse_vcf_header_no_chrom (lines : List Str)
    (h : ∀ l ∈ lines, pyStartsWith l (str "#CHROM") = false) :
    (parse_vcf_header lines).1 = [] :=
  parse_vcf_header_go_no_chrom lines [] h

theorem parseGenotypes_no_samples (fields : List Str) :
    parseGenotypes fields [] = [] := by
  unfold parseGenotypes
  split <;> rfl

theorem parse_vcf_line_no_samples {l : Str} {v : VCFVariant}
    (h : parse_vcf_line l [] = .ok (some v)) : v.genotypes = [] := by
  simp only [parse_vcf_line] at h
  by_cases h8 : (vcfFields l).length < 8
  · rw [if_pos h8] at h
    injection h with h'
    exact Option.noConfusion h'
  · rw [if_neg h8] at h
    cases hint : pyIntOf ((vcfFields l).getD 1 []) with
    | none => simp only [hint] at h; exact Except.noConfusion h
    | some pos =>
      simp only [hint] at h
      cases hq : parseQual ((vcfFields l).getD 5 []) with
      | error e => simp only [hq] at h; exact Except.noConfusion h
      | ok q =>
        simp only [hq] at h
        injection h with h'
        injection h' with h''
        rw [← h'']
        exact parseGenotypes_no_samples (vcfFields l)

theorem relsOf_of_genotypes_nil {node : VariantNodeData} {v : VCFVariant}
    (h : v.genotypes = []) : relsOf node v = [] := by
  unfold relsOf
  rw [h]
  rfl

theorem process_vcf_batch_es_nil :
    ∀ {b : List VCFVariant} {ns : List VariantNodeData}
      {es : List GenotypeRel},
      process_vcf_batch b = .ok (ns, es) →
      (∀ v ∈ b, v.genotypes = []) → es = [] := by
  intro b
  induction b with
  | nil =>
    intro ns es h _
    injection h with h'
    exact (congrArg Prod.snd h').symm
  | cons v rest ih =>
    intro ns es h hg
    cases hc : create_variant_node v with
    | error e => simp [process_vcf_batch, hc] at h
    | ok node =>
      cases hr : process_vcf_batch rest with
      | error e => simp [process_vcf_batch, hc, hr] at h
      | ok p =>
        simp only [process_vcf_batch, hc, hr] at h
        injection h with h'
        have h2 : relsOf node v ++ p.2 = es := congrArg Prod.snd h'
        have htail : p.2 = [] :=
          @ih p.1 p.2 (by rw [hr]) (fun w hw => hg w (by simp [hw]))
        rw [← h2, htail, relsOf_of_genotypes_nil (hg v (by simp)),
          List.append_nil]

theorem insertRels_nil (st : Store) :
    batch_insert_genotype_relationships st [] = st := rfl

theorem processAndInsertBatch_edges_nil {st : Store}
    {stats : ProcessingStats} {batch : List VCFVariant} {st' : Store}
    {s' : ProcessingStats}
    (hg : ∀ v ∈ batch, v.genotypes = [])
    (h : processAndInsertBatch st stats batch = .ok (st', s')) :
    st'.edges = st.edges ∧ st'.germs = st.germs ∧
      s'.total_genotypes = stats.total_genotypes := by
  unfold processAndInsertBatch scriptFlush at h
  cases hb : process_vcf_batch batch with
  | error e => simp only [hb] at h; exact Except.noConfusion h
  | ok f =>
    obtain ⟨ns, es⟩ := f
    have hes : es = [] := process_vcf_batch_es_nil (by rw [hb]) hg
    simp only [hb] at h
    injection h with h'
    have h1 : applyFlush st (ns, es) = st' := congrArg Prod.fst h'
    have h2 : statsAfterFlush stats (ns, es) = s' := congrArg Prod.snd h'
    rw [← h1, ← h2]
    subst hes
    refine ⟨rfl, rfl, ?_⟩
    simp [statsAfterFlush]

theorem ingestLoop_no_genotypes (bs : Nat) (mv : Option Nat) :
    ∀ (lines : List Str) (st : Store) (stats : ProcessingStats)
      (batch : List VCFVariant) (st' : Store) (s' : ProcessingStats),
      (∀ v ∈ batch, v.genotypes = []) →
      ingestLoop [] bs mv lines st stats batch = .ok (st', s') →
      st'.edges = st.edges ∧ st'.germs = st.germs ∧
        s'.total_genotypes = stats.total_genotypes := by
  intro lines
  induction lines with
  | nil =>
    intro st stats batch st' s' hg h
    simp only [ingestLoop] at h
    by_cases hb : batch ≠ []
    · rw [if_pos hb] at h
      exact processAndInsertBatch_edges_nil hg h
    · rw [if_neg hb] at h
      injection h with h'
      have h1 : st = st' := congrArg Prod.fst h'
      have h2 : stats = s' := congrArg Prod.snd h'
      rw [← h1, ← h2]
      exact ⟨rfl, rfl, rfl⟩
  | cons line rest ih =>
    intro st stats batch st' s' hg h
    simp only [ingestLoop] at h
    by_cases hh : pyStartsWith line (str "#") = true
    · rw [if_pos hh] at h
      exact ih st stats batch st' s' hg h
    · rw [if_neg hh] at h
      cases hp : parse_vcf_line line [] with
      | error e => simp only [hp] at h; exact Except.noConfusion h
      | ok ov =>
        cases ov with
        | none =>
          simp only [hp] at h
          have := ih st
            { stats with skipped_variants := stats.skipped_variants + 1 }
            batch st' s' hg h
          exact ⟨this.1, this.2.1, this.2.2⟩
        | some v =>
          simp only [hp] at h
          have hgv : ∀ w ∈ batch ++ [v], w.genotypes = [] := by
            intro w hw
            rcases List.mem_append.mp hw with hw' | hw'
            · exact hg w hw'
            · rcases List.mem_singleton.mp hw' with rfl
              exact parse_vcf_line_no_samples hp
          by_cases hbs : bs ≤ (batch ++ [v]).length
          · rw [if_pos hbs] at h
            cases hf : processAndInsertBatch st
                { stats with total_variants := stats.total_variants + 1 }
                (batch ++ [v]) with
            | error e => simp only [hf] at h; exact Except.noConfusion h
            | ok p =>
              obtain ⟨st2, s2⟩ := p
              have hfl := processAndInsertBatch_edges_nil hgv hf
              simp only [hf] at h
              by_cases hmv : mvHit mv s2.total_variants = true
              · rw [if_pos hmv] at h
                injection h with h'
                have h1 : st2 = st' := congrArg Prod.fst h'
                have h2 : s2 = s' := congrArg Prod.snd h'
                rw [← h1, ← h2]
                exact ⟨hfl.1, hfl.2.1, hfl.2.2⟩
              · rw [if_neg hmv] at h
                have := ih st2 s2 [] st' s' (by simp) h
                exact ⟨this.1.trans hfl.1, this.2.1.trans hfl.2.1,
                  this.2.2.trans hfl.2.2⟩
          · rw [if_neg hbs] at h
            by_cases hmv :
                mvHit mv
                  ({ stats with
                      total_variants :=
                        stats.total_variants + 1 }).total_variants = true
            · rw [if_pos hmv] at h
              have := processAndInsertBatch_edges_nil hgv h
              exact ⟨this.1, this.2.1, this.2.2⟩
            · rw [if_neg hmv] at h
              have := ih st
                { stats with total_variants := stats.total_variants + 1 }
                (batch ++ [v]) st' s' hgv h
              exact ⟨this.1, this.2.1, this.2.2⟩

/-- Claim C9 (amended): when the input has no `#CHROM` sample-list line,
the run is not aborted — `parse_vcf_header` returns an empty sample
list, `process_vcf_file` proceeds to stream the data lines (creating
variant nodes), and no genotype edges are produced. -/
theorem spec_C9_missing_header_amended (lines : List Str) (store : Store)
    (mv : Option Nat) (bs : Nat)
    (h : ∀ l ∈ lines, pyStartsWith l (str "#CHROM") = false) :
    (parse_vcf_header lines).1 = [] ∧
    (∀ (st : Store) (s : ProcessingStats),
        process_vcf_file store lines mv bs = .ok (st, s) →
        st.edges = store.edges ∧ s.total_genotypes = 0) := by
  have hs := parse_vcf_header_no_chrom lines h
  refine ⟨hs, ?_⟩
  intro st s hrun
  unfold process_vcf_file at hrun
  rw [hs] at hrun
  have := ingestLoop_no_genotypes bs mv lines store ⟨0, 0, 0, 0⟩ [] st s
    (by simp) hrun
  exact ⟨this.1, this.2.2⟩

/-- The node built for the data line of the C9 counterexample. -/
def c9Node : VariantNodeData :=
  ⟨str "1_2_A_G", str "1_2", str "1", 2, str "A", str "G", str "SNP",
   none, str "P", none, none⟩

/-- Counterexample to C9 as stated: with no `#CHROM` line in the input,
the run completes successfully (no fatal `HeaderParseFailure`) and still
processes the data line into a variant node. -/
theorem spec_C9_counterexample :
    process_vcf_file ⟨[], [], []⟩
        [str "##a=b", str "1\t2\t.\tA\tG\t.\tP\t."] none 5 =
      .ok (⟨[(str "1_2_A_G", c9Node)], [], []⟩, ⟨1, 1, 0, 0⟩) := by decide

/-- The headerless one-line input of the C9 witness. -/
def c9WLines : List Str := [str "1\t3\t.\tA\tG\t.\tP\t."]

/-- The initial store of the C9 witness. -/
def c9WStore : Store := ⟨[], [], [str "S"]⟩

/-- The store after the C9 witness run. -/
def c9WSt : Store :=
  ⟨[(str "1_3_A_G",
     ⟨str "1_3_A_G", str "1_3", str "1", 3, str "A", str "G", str "SNP",
      none, str "P", none, none⟩)], [], [str "S"]⟩

/-- The statistics of the C9 witness run. -/
def c9WStats : ProcessingStats := ⟨1, 1, 0, 0⟩

/-- Witness for the amended C9: the headerless run leaves the edges
untouched and counts no genotypes. -/
theorem spec_C9_missing_header_amended_witness :
    c9WSt.edges = c9WStore.edges ∧ c9WStats.total_genotypes = 0 :=
  (spec_C9_missing_header_amended c9WLines c9WStore none 5 (by decide)).2
    c9WSt c9WStats (by decide)

/- ===== C7: malformed-record resilience ===== -/

/-- A line that parses to a record whose node construction also
succeeds — the conditions under which the pipeline fully processes it. -/
def cleanLineB (samples : List Str) (l : Str) : Bool :=
  match parse_vcf_line l samples with
  | .ok (some v) =>
    match create_variant_node v with
    | .ok _ => true
    | .error _ => false
  | _ => false

theorem parse_vcf_line_short {l : Str} (samples : List Str)
    (h : (vcfFields l).length < 8) :
    parse_vcf_line l samples = .ok none := by
  simp only [parse_vcf_line]
  rw [if_pos h]

theorem short_of_parse_none {l : Str} {samples : List Str}
    (h : parse_vcf_line l samples = .ok none) :
    (vcfFields l).length < 8 := by
  by_cases h8 : (vcfFields l).length < 8
  · exact h8
  · exfalso
    simp only [parse_vcf_line] at h
    rw [if_neg h8] at h
    cases hint : pyIntOf ((vcfFields l).getD 1 []) with
    | none => simp only [hint] at h; exact Except.noConfusion h
    | some pos =>
      simp only [hint] at h
      cases hq : parseQual ((vcfFields l).getD 5 []) with
      | error e => simp only [hq] at h; exact Except.noConfusion h
      | ok q =>
        simp only [hq] at h
        injection h with h'
        exact Option.noConfusion h'

theorem cleanLineB_node {samples : List Str} {l : Str} {v : VCFVariant}
    (hc : cleanLineB samples l = true)
    (hp : parse_vcf_line l samples = .ok (some v)) :
    ∃ n, create_variant_node v = .ok n := by
  unfold cleanLineB at hc
  simp only [hp] at hc
  cases hn : create_variant_node v with
  | error e => simp only [hn] at hc; exact Bool.noConfusion hc
  | ok n => exact ⟨n, rfl⟩

theorem cleanLineB_parse {samples : List Str} {l : Str}
    (hc : cleanLineB samples l = true) :
    ∃ v, parse_vcf_line l samples = .ok (some v) := by
  unfold cleanLineB at hc
  cases hp : parse_vcf_line l samples with
  | error e => rw [hp] at hc; exact Bool.noConfusion hc
  | ok ov =>
    cases ov with
    | none => rw [hp] at hc; exact Bool.noConfusion hc
    | some v => exact ⟨v, rfl⟩

theorem mvHit_none (t : Nat) : mvHit none t = false := rfl

theorem scriptFlush_ok {batch : List VCFVariant}
    (stats : ProcessingStats)
    (h : ∀ v ∈ batch, ∃ n, create_variant_node v = .ok n) :
    ∃ f s2, scriptFlush stats batch = .ok (f, s2) ∧
      s2.skipped_variants = stats.skipped_variants ∧
      s2.total_variants = stats.total_variants ∧
      s2.processed_variants = stats.processed_variants + batch.length := by
  obtain ⟨ns, es, hb⟩ := process_vcf_batch_ok_of_nodes h
  refine ⟨(ns, es), statsAfterFlush stats (ns, es), ?_, rfl, rfl, ?_⟩
  · unfold scriptFlush
    rw [hb]
  · show stats.processed_variants + ns.length = _
    rw [process_vcf_batch_lengths hb]

theorem scriptLoop_stats (bs : Nat) :
    ∀ (lines : List Str) (stats : ProcessingStats)
      (batch : List VCFVariant),
      (∀ l ∈ lines, pyStartsWith l (str "#") = false) →
      (∀ l ∈ lines, (vcfFields l).length < 8 ∨ cleanLineB [] l = true) →
      (∀ v ∈ batch, ∃ n, create_variant_node v = .ok n) →
      stats.processed_variants + batch.length = stats.total_variants →
      ∃ fs s, scriptLoop [] bs none lines stats batch = .ok (fs, s) ∧
        s.skipped_variants = stats.skipped_variants +
          lines.countP (fun l => decide ((vcfFields l).length < 8)) ∧
        s.total_variants = stats.total_variants +
          (lines.length -
            lines.countP (fun l => decide ((vcfFields l).length < 8))) ∧
        s.processed_variants = s.total_variants := by
  intro lines
  induction lines with
  | nil =>
    intro stats batch _ _ hbatch hinv
    simp only [scriptLoop]
    by_cases hb : batch ≠ []
    · rw [if_pos hb]
      obtain ⟨f, s2, hf, hsk, hto, hpr⟩ := scriptFlush_ok stats hbatch
      rw [hf]
      exact ⟨[f], s2, rfl, by simp [hsk], by simp [hto], by omega⟩
    · rw [if_neg hb]
      have h0 : batch.length = 0 := by
        rw [not_not.mp hb]
        rfl
      exact ⟨[], stats, rfl, by simp, by simp, by omega⟩
  | cons line rest ih =>
    intro stats batch hh hcl hbatch hinv
    have hcount : rest.countP
        (fun l => decide ((vcfFields l).length < 8)) ≤ rest.length :=
      List.countP_le_length _
    have hne : ¬pyStartsWith line (str "#") = true := by
      simp [hh line (by simp)]
    cases hp : parse_vcf_line line [] with
    | error e =>
      exfalso
      rcases hcl line (by simp) with hs | hc
      · rw [parse_vcf_line_short [] hs] at hp
        exact Except.noConfusion hp
      · obtain ⟨v, hv⟩ := cleanLineB_parse hc
        rw [hv] at hp
        exact Except.noConfusion hp
    | ok ov =>
      cases ov with
      | none =>
        have hshort : (vcfFields line).length < 8 := short_of_parse_none hp
        have hstep : scriptLoop [] bs none (line :: rest) stats batch =
            scriptLoop [] bs none rest
              { stats with
                  skipped_variants := stats.skipped_variants + 1 }
              batch := by
          simp only [scriptLoop]
          rw [if_neg hne]
          simp only [hp]
        obtain ⟨fs, s, hrun, hsk, hto, hpr⟩ :=
          ih { stats with skipped_variants := stats.skipped_variants + 1 }
            batch (fun x hx => hh x (by simp [hx]))
            (fun x hx => hcl x (by simp [hx])) hbatch hinv
        have hsk' : s.skipped_variants = stats.skipped_variants + 1 +
            rest.countP (fun l => decide ((vcfFields l).length < 8)) := hsk
        have hto' : s.total_variants = stats.total_variants +
            (rest.length -
              rest.countP (fun l => decide ((vcfFields l).length < 8))) :=
          hto
        refine ⟨fs, s, hstep.trans hrun, ?_, ?_, hpr⟩
        · simp [List.countP_cons, hshort]
          omega
        · simp [List.countP_cons, hshort]
          omega
      | some v =>
        have hnotshort : ¬(vcfFields line).length < 8 := by
          intro hs
          rw [parse_vcf_line_short [] hs] at hp
          injection hp with h'
          exact Option.noConfusion h'
        have hclean : cleanLineB [] line = true := by
          rcases hcl line (by simp) with hs | hc
          · exact absurd hs hnotshort
          · exact hc
        have hbatch1 : ∀ w ∈ batch ++ [v],
            ∃ n, create_variant_node w = .ok n := by
          intro w hw
          rcases List.mem_append.mp hw with hw' | hw'
          · exact hbatch w hw'
          · rcases List.mem_singleton.mp hw' with rfl
            exact cleanLineB_node hclean hp
        have hinv1 :
            stats.processed_variants + (batch ++ [v]).length =
              stats.total_variants + 1 := by
          rw [List.length_append]
          simp only [List.length_cons, List.length_nil]
          omega
        by_cases hbs : bs ≤ (batch ++ [v]).length
        · obtain ⟨f, s2, hf, hsk2, hto2, hpr2⟩ :=
            scriptFlush_ok
              { stats with total_variants := stats.total_variants + 1 }
              hbatch1
          have hsk2' : s2.skipped_variants = stats.skipped_variants := hsk2
          have hto2' : s2.total_variants = stats.total_variants + 1 := hto2
          have hpr2' : s2.processed_variants =
              stats.processed_variants + (batch ++ [v]).length := hpr2
          obtain ⟨fs, s, hrun, hsk, hto, hpr⟩ :=
            ih s2 [] (fun x hx => hh x (by simp [hx]))
              (fun x hx => hcl x (by simp [hx])) (by simp)
              (by simp only [List.length_nil]; omega)
          have hstep : scriptLoop [] bs none (line :: rest) stats batch =
              .ok (f :: fs, s) := by
            simp only [scriptLoop]
            rw [if_neg hne]
            simp only [hp]
            rw [if_pos hbs]
            simp only [hf]
            simp only [hrun]
            rfl
          refine ⟨f :: fs, s, hstep, ?_, ?_, hpr⟩
          · simp [List.countP_cons, hnotshort]
            omega
          · simp [List.countP_cons, hnotshort]
            omega
        · have hstep : scriptLoop [] bs none (line :: rest) stats batch =
              scriptLoop [] bs none rest
                { stats with
                    total_variants := stats.total_variants + 1 }
                (batch ++ [v]) := by
            simp only [scriptLoop]
            rw [if_neg hne]
            simp only [hp]
            rw [if_neg hbs]
            rfl
          obtain ⟨fs, s, hrun, hsk, hto, hpr⟩ :=
            ih { stats with total_variants := stats.total_variants + 1 }
              (batch ++ [v]) (fun x hx => hh x (by simp [hx]))
              (fun x hx => hcl x (by simp [hx])) hbatch1 hinv1
          have hsk' : s.skipped_variants = stats.skipped_variants +
              rest.countP (fun l => decide ((vcfFields l).length < 8)) :=
            hsk
          have hto' : s.total_variants = stats.total_variants + 1 +
              (rest.length -
                rest.countP (fun l => decide ((vcfFields l).length < 8))) :=
            hto
          refine ⟨fs, s, hstep.trans hrun, ?_, ?_, hpr⟩
          · simp [List.countP_cons, hnotshort]
            omega
          · simp [List.countP_cons, hnotshort]
            omega

theorem pyStartsWith_hash_of_chrom {l : Str}
    (h : pyStartsWith l (str "#CHROM") = true) :
    pyStartsWith l (str "#") = true := by
  cases l with
  | nil => exact absurd h (by decide)
  | cons c s =>
    rw [show str "#CHROM" = '#' :: str "CHROM" from rfl] at h
    rw [show str "#" = ['#'] from rfl]
    simp only [pyStartsWith, Bool.and_eq_true] at h ⊢
    exact ⟨h.1, trivial⟩

/-- Claim C7: over a stream of data lines of which exactly M are
malformed (fewer than 8 fields) and the rest well-formed, the run
completes without abort, `skipped_variants` ends at M, and exactly N−M
records are processed (`processed_variants = total_variants = N−M`). -/
theorem spec_C7_malformed_resilience (store : Store) (lines : List Str)
    (bs : Nat)
    (h1 : ∀ l ∈ lines, pyStartsWith l (str "#") = false)
    (h2 : ∀ l ∈ lines, (vcfFields l).length < 8 ∨ cleanLineB [] l = true) :
    ∃ st s, process_vcf_file store lines none bs = .ok (st, s) ∧
      s.skipped_variants =
        lines.countP (fun l => decide ((vcfFields l).length < 8)) ∧
      s.processed_variants = lines.length -
        lines.countP (fun l => decide ((vcfFields l).length < 8)) ∧
      s.total_variants = s.processed_variants := by
  have hsamples : (parse_vcf_header lines).1 = [] := by
    apply parse_vcf_header_no_chrom
    intro l hl
    by_cases hc : pyStartsWith l (str "#CHROM") = true
    · exact absurd (pyStartsWith_hash_of_chrom hc) (by simp [h1 l hl])
    · simpa using hc
  obtain ⟨fs, s, hrun, hsk, hto, hpr⟩ :=
    scriptLoop_stats bs lines ⟨0, 0, 0, 0⟩ [] h1 h2 (by simp) (by rfl)
  refine ⟨applyFlushes store fs, s, ?_, ?_, ?_, hpr.symm⟩
  · rw [process_vcf_file_eq_script, hsamples, hrun]
    rfl
  · simpa using hsk
  · rw [hpr, hto]
    simp

/-- Witness for C7: a two-line stream with one well-formed and one
malformed line completes with one skipped and one processed record. -/
theorem spec_C7_malformed_resilience_witness :
    ∃ st s, process_vcf_file ⟨[], [], []⟩
        [str "1\t2\t.\tA\tG\t.\tP\t.", str "xx"] none 10 = .ok (st, s) ∧
      s.skipped_variants =
        ([str "1\t2\t.\tA\tG\t.\tP\t.", str "xx"]).countP
          (fun l => decide ((vcfFields l).length < 8)) ∧
      s.processed_variants =
        ([str "1\t2\t.\tA\tG\t.\tP\t.", str "xx"]).length -
        ([str "1\t2\t.\tA\tG\t.\tP\t.", str "xx"]).countP
          (fun l => decide ((vcfFields l).length < 8)) ∧
      s.total_variants = s.processed_variants :=
  spec_C7_malformed_resilience ⟨[], [], []⟩
    [str "1\t2\t.\tA\tG\t.\tP\t.", str "xx"] 10 (by decide) (by decide)
